import Mathlib

/-!
Shallow embedding of the BadgerDB buffer pool manager (`src/buffer.cpp`)
and of the collaborators it uses (`BufDesc`, the buffer hash table and the
`File` class, whose sources are not in the repository; they are modelled
from the specification, §3, §4.8, §6 and §9).

Machine state is passed explicitly: every operation takes a `Sys` and
returns the final `Sys` together with `Except BufErr α` — when the C++
code throws, the state at throw time is returned with the error, so that
partially-performed mutations are observable, exactly as in C++.
-/

namespace BufferMgr

/-- A disk page: its page number plus its (abstract) data word.
Modelled from the spec: the `Page` class is not in `src/`; §6 exposes
only `page_number()` and the sentinel `INVALID_NUMBER`. -/
structure Page where
  page_number : Nat := 0
  data : Nat := 0
deriving Repr, DecidableEq

/-- Modelled from the spec: `Page::INVALID_NUMBER`, the sentinel meaning
no page (§3, §6). -/
def INVALID_NUMBER : Nat := 0

/-- One frame descriptor, as in `buffer.h`/§3 of the spec.  The default
field values are the empty state that `BufDesc::Clear` establishes
(Modelled from the spec, §4.8: file absent, `pageNo = INVALID`,
`pinCnt = 0`, `valid = false`, `dirty = false`, `refbit = false`).
The owning file is identified by a number (its identity); `none` is the
C++ null pointer. -/
structure BufDesc where
  frameNo : Nat := 0
  file : Option Nat := none
  pageNo : Nat := INVALID_NUMBER
  pinCnt : Nat := 0
  dirty : Bool := false
  valid : Bool := false
  refbit : Bool := false
deriving Repr, DecidableEq

/-- Modelled from the spec (§4.8): `BufDesc::Set(file, pageNo)`
establishes `(valid = true, pinCnt = 1, dirty = false, refbit = true)`;
`frameNo` is preserved. -/
def BufDesc.Set (d : BufDesc) (fid pageNo : Nat) : BufDesc :=
  { d with file := some fid, pageNo := pageNo, valid := true,
           pinCnt := 1, dirty := false, refbit := true }

/-- Modelled from the spec (§4.8): `BufDesc::Clear()` resets the
descriptor to the empty state, preserving `frameNo`. -/
def BufDesc.Clear (d : BufDesc) : BufDesc :=
  { d with file := none, pageNo := INVALID_NUMBER, pinCnt := 0,
           valid := false, dirty := false, refbit := false }

/-- Modelled from the spec (§3, §9): the directory is an associative
container from `(file identity, pageNo)` to frame number; any correct
associative container suffices, so an association list is used. -/
abbrev HashTbl := List ((Nat × Nat) × Nat)

/-- Directory lookup; `none` is the `HashNotFoundException` of the C++
hash table. -/
def htLookup (t : HashTbl) (fid p : Nat) : Option Nat :=
  match t with
  | [] => none
  | e :: rest => if e.1 = (fid, p) then some e.2 else htLookup rest fid p

/-- Directory removal of the (first) entry with the given key. -/
def htRemove (t : HashTbl) (fid p : Nat) : HashTbl :=
  match t with
  | [] => []
  | e :: rest => if e.1 = (fid, p) then rest else e :: htRemove rest fid p


/-- Modelled from the spec (§6): the persistent contents of one file —
its resident pages (pageNo, data) and the next page number
`allocatePage` will assign.  Page numbers start above the sentinel. -/
structure FileData where
  pages : List (Nat × Nat) := []
  nextPage : Nat := 1
deriving Repr, DecidableEq

def pagesLookup (ps : List (Nat × Nat)) (p : Nat) : Option Nat :=
  match ps with
  | [] => none
  | e :: rest => if e.1 = p then some e.2 else pagesLookup rest p

def pagesStore (ps : List (Nat × Nat)) (p c : Nat) : List (Nat × Nat) :=
  match ps with
  | [] => [(p, c)]
  | e :: rest => if e.1 = p then (p, c) :: rest else e :: pagesStore rest p c

def pagesRemove (ps : List (Nat × Nat)) (p : Nat) : List (Nat × Nat) :=
  match ps with
  | [] => []
  | e :: rest => if e.1 = p then rest else e :: pagesRemove rest p

/-- An I/O call made on a `File` object, recorded so that theorems can
speak about which file operations an execution performed. -/
inductive Ev where
  | readP (fid pageNo : Nat)
  | writeP (fid pageNo : Nat)
  | allocP (fid pageNo : Nat)
  | deleteP (fid pageNo : Nat)
deriving Repr, DecidableEq

/-- The exceptions of `src/buffer.cpp` (§7).  `filename()` is modelled
by the file identity number. -/
inductive BufErr where
  | bufferExceeded
  | pageNotPinned (filename pageNo frameNo : Nat)
  | pagePinned (filename pageNo frameNo : Nat)
  | badBuffer (frameNo : Nat) (dirty valid refbit : Bool)
  | invalidPage
  | hashAlreadyPresent
deriving Repr, DecidableEq

deriving instance DecidableEq for Except

/-- Directory insertion.  Modelled from the spec (§3): insertion of an
already-present key is signaled by a dedicated error condition (the C++
hash table throws, which `readPage`/`allocPage` do not catch). -/
def htInsertE (t : HashTbl) (fid p frame : Nat) : Except BufErr HashTbl :=
  match htLookup t fid p with
  | some _ => Except.error BufErr.hashAlreadyPresent
  | none => Except.ok (((fid, p), frame) :: t)

/-- The whole machine state: the buffer manager (frame table, page pool,
directory, clock hand — `BufMgr`'s members), the disk (file id ↦
contents) and the log of file I/O calls (most recent first). -/
structure Sys where
  bufDescTable : List BufDesc
  bufPool : List Page
  hashTable : HashTbl
  clockHand : Nat
  disk : List (Nat × FileData) := []
  trace : List Ev := []
deriving Repr, DecidableEq

/-- `numBufs`: in `BufMgr` the frame-table array has exactly `numBufs`
entries, and nothing ever resizes it, so the count is taken from the
table itself. -/
def Sys.numBufs (s : Sys) : Nat := s.bufDescTable.length

/-- The descriptor at index `i` of a frame table. -/
def dAt (l : List BufDesc) (i : Nat) : BufDesc :=
  (l[i]?).getD { frameNo := i }

/-- The descriptor of frame `i` (`bufDescTable[i]`). -/
def descAt (s : Sys) (i : Nat) : BufDesc :=
  dAt s.bufDescTable i

/-- The pool slot of frame `i` (`bufPool[i]`). -/
def poolAt (s : Sys) (i : Nat) : Page :=
  (s.bufPool[i]?).getD {}

def diskGet (dk : List (Nat × FileData)) (fid : Nat) : FileData :=
  match dk with
  | [] => {}
  | e :: rest => if e.1 = fid then e.2 else diskGet rest fid

def diskSet (dk : List (Nat × FileData)) (fid : Nat) (fd : FileData) :
    List (Nat × FileData) :=
  match dk with
  | [] => [(fid, fd)]
  | e :: rest => if e.1 = fid then (fid, fd) :: rest else e :: diskSet rest fid fd

/-- Modelled from the spec (§6): `File::readPage(pageNo)` returns the
on-disk contents of the page, raising on failure (the page is not in
the file). -/
def fileReadPage (s : Sys) (fid p : Nat) : Sys × Except BufErr Page :=
  let s1 : Sys := { s with trace := Ev.readP fid p :: s.trace }
  match pagesLookup (diskGet s.disk fid).pages p with
  | some c => (s1, Except.ok { page_number := p, data := c })
  | none => (s1, Except.error BufErr.invalidPage)

/-- Modelled from the spec (§6): `File::writePage(page)` persists the
page; the page number is carried within the page. -/
def fileWritePage (s : Sys) (fid : Nat) (pg : Page) : Sys :=
  let fd := diskGet s.disk fid
  { s with disk := diskSet s.disk fid
             { fd with pages := pagesStore fd.pages pg.page_number pg.data },
           trace := Ev.writeP fid pg.page_number :: s.trace }

/-- Modelled from the spec (§6): `File::allocatePage()` returns a fresh
page with a newly assigned page number. -/
def fileAllocatePage (s : Sys) (fid : Nat) : Sys × Page :=
  let fd := diskGet s.disk fid
  let n := fd.nextPage
  ({ s with disk := diskSet s.disk fid
              { pages := pagesStore fd.pages n 0, nextPage := n + 1 },
            trace := Ev.allocP fid n :: s.trace },
   { page_number := n, data := 0 })

/-- Modelled from the spec (§6): `File::deletePage(pageNo)` removes a
page from the file. -/
def fileDeletePage (s : Sys) (fid p : Nat) : Sys :=
  let fd := diskGet s.disk fid
  { s with disk := diskSet s.disk fid { fd with pages := pagesRemove fd.pages p },
           trace := Ev.deleteP fid p :: s.trace }

/-- The constructor `BufMgr::BufMgr(bufs)`: all frames invalid with
`frameNo = i`, empty directory, `clockHand = bufs - 1`.  The disk is a
parameter (the files exist independently of the manager). -/
def initSys (bufs : Nat) (dk : List (Nat × FileData)) : Sys :=
  { bufDescTable := (List.range bufs).map (fun i => { frameNo := i }),
    bufPool := List.replicate bufs {},
    hashTable := [],
    clockHand := bufs - 1,
    disk := dk,
    trace := [] }

/-- Number of set reference bits — together with the pinned-frame
counter this bounds the number of iterations of the clock sweep. -/
def refbitCount (l : List BufDesc) : Nat := l.countP (fun d => d.refbit)

/-- The eviction tail of `allocBuf`'s loop body (`buffer.cpp` lines
92–102): write back if dirty, remove the directory entry, `Clear()` the
descriptor, return the hand.  `d` is the descriptor at the hand. -/
def evictFrame (s : Sys) (hand : Nat) (d : BufDesc) : Sys × Except BufErr Nat :=
  let s1 := if d.dirty then
      match d.file with
      | some fid => fileWritePage s fid (poolAt s hand)
      | none => s
    else s
  let s2 := match d.file with
    | some fid => { s1 with hashTable := htRemove s1.hashTable fid d.pageNo }
    | none => s1
  ({ s2 with bufDescTable := s2.bufDescTable.set hand d.Clear }, Except.ok hand)

/-- The loop of `BufMgr::allocBuf` (`buffer.cpp` lines 70–106).
`pinCount` accumulates the pinned frames encountered; the C++ guard is
`while (pinCount != numBufs)` and `pinCount` only ever grows by single
increments from 0, so `numBufs ≤ pinCount` is the same exit condition.
The recursion is structural on `fuel`, an upper bound on the number of
remaining iterations; `allocBuf` passes a sufficient bound, and by
`allocBufLoop_fuel` the result does not depend on the bound chosen, so
the `fuel = 0` branch is dead code.  The `none` branch of the match is
out of model: the hand is always within the table.  The clock hand is
advanced before inspection. -/
def allocBufLoop (s : Sys) (pinCount fuel : Nat) : Sys × Except BufErr Nat :=
  match fuel with
  | 0 => (s, Except.error BufErr.bufferExceeded)
  | fuel + 1 =>
    if s.numBufs ≤ pinCount then
      (s, Except.error BufErr.bufferExceeded)
    else
      match s.bufDescTable[(s.clockHand + 1) % s.numBufs]? with
      | none => (s, Except.error BufErr.bufferExceeded)
      | some d =>
        if d.valid = false then
          ({ s with clockHand := (s.clockHand + 1) % s.numBufs },
           Except.ok ((s.clockHand + 1) % s.numBufs))
        else if d.refbit then
          allocBufLoop { s with
            clockHand := (s.clockHand + 1) % s.numBufs,
            bufDescTable := (s.bufDescTable.set ((s.clockHand + 1) % s.numBufs)
              { d with refbit := false }) } pinCount fuel
        else if 0 < d.pinCnt then
          allocBufLoop { s with clockHand := (s.clockHand + 1) % s.numBufs }
            (pinCount + 1) fuel
        else
          evictFrame { s with clockHand := (s.clockHand + 1) % s.numBufs }
            ((s.clockHand + 1) % s.numBufs) d

/-- `BufMgr::allocBuf` (`buffer.cpp` lines 70–106): the single-cursor
clock sweep, starting with `pinCount = 0`. -/
def allocBuf (s : Sys) : Sys × Except BufErr Nat :=
  allocBufLoop s 0 (s.numBufs + refbitCount s.bufDescTable + 1)

/-- `BufMgr::readPage` (`buffer.cpp` lines 109–126).  The returned
`Nat` is the frame index — the C++ `page` pointer is `&bufPool[frame]`.
On a directory hit the descriptor gets `refbit := true` and
`pinCnt += 1`; on a miss a frame is obtained from `allocBuf`, the page
is loaded from the file into the pool slot, the directory entry is
inserted and the descriptor is `Set`. -/
def readPage (s : Sys) (fid p : Nat) : Sys × Except BufErr Nat :=
  match htLookup s.hashTable fid p with
  | some frame =>
      ({ s with bufDescTable := (s.bufDescTable.set frame
           { descAt s frame with refbit := true,
                                 pinCnt := (descAt s frame).pinCnt + 1 }) },
       Except.ok frame)
  | none =>
      match allocBuf s with
      | (s1, Except.error e) => (s1, Except.error e)
      | (s1, Except.ok frame) =>
        match fileReadPage s1 fid p with
        | (s2, Except.error e) => (s2, Except.error e)
        | (s2, Except.ok pg) =>
          let s3 := { s2 with bufPool := s2.bufPool.set frame pg }
          match htInsertE s3.hashTable fid p frame with
          | Except.error e => (s3, Except.error e)
          | Except.ok ht =>
            let s4 := { s3 with hashTable := ht }
            ({ s4 with bufDescTable :=
                 (s4.bufDescTable.set frame ((descAt s4 frame).Set fid p)) },
             Except.ok frame)

/-- `BufMgr::unPinPage` (`buffer.cpp` lines 129–146).  A missing
directory entry is a silent no-op; the dirty bit is set (when asked)
before the pin count is checked; `pinCnt <= 0` (on an unsigned counter,
`= 0`) raises `PageNotPinned`; otherwise the pin count is decremented. -/
def unPinPage (s : Sys) (fid p : Nat) (dirty : Bool) : Sys × Except BufErr Unit :=
  match htLookup s.hashTable fid p with
  | none => (s, Except.ok ())
  | some frame =>
    let s1 := if dirty then
        { s with bufDescTable := (s.bufDescTable.set frame
            { descAt s frame with dirty := true }) }
      else s
    if (descAt s1 frame).pinCnt = 0 then
      (s1, Except.error (BufErr.pageNotPinned fid p frame))
    else
      ({ s1 with bufDescTable := (s1.bufDescTable.set frame
           { descAt s1 frame with pinCnt := (descAt s1 frame).pinCnt - 1 }) },
       Except.ok ())

/-- `BufMgr::allocPage` (`buffer.cpp` lines 148–162).  The file
allocates the new page first; then a frame is obtained, the directory
entry inserted, the descriptor `Set` and the page copied into the pool
slot.  Returns `(pageNo, frame)`. -/
def allocPage (s : Sys) (fid : Nat) : Sys × Except BufErr (Nat × Nat) :=
  match fileAllocatePage s fid with
  | (s0, newPage) =>
    match allocBuf s0 with
    | (s1, Except.error e) => (s1, Except.error e)
    | (s1, Except.ok frame) =>
      match htInsertE s1.hashTable fid newPage.page_number frame with
      | Except.error e => (s1, Except.error e)
      | Except.ok ht =>
        let s2 := { s1 with hashTable := ht }
        let s3 := { s2 with bufDescTable := (s2.bufDescTable.set frame
                      ((descAt s2 frame).Set fid newPage.page_number)) }
        let s4 := { s3 with bufPool := s3.bufPool.set frame newPage }
        (s4, Except.ok (newPage.page_number, frame))

/-- The scan of `BufMgr::flushFile` (`buffer.cpp` lines 164–186) from
frame `i` upward: for each frame owned by `fid`, raise `PagePinned` if
pinned, `BadBuffer` if its page number is the sentinel, otherwise write
back if dirty (clearing the dirty bit), remove the directory entry and
`Clear()` the descriptor. -/
def flushFileGo (s : Sys) (fid : Nat) (i : Nat) (fuel : Nat) :
    Sys × Except BufErr Unit :=
  match fuel with
  | 0 => (s, Except.ok ())
  | fuel + 1 =>
    if i < s.numBufs then
      if (descAt s i).file = some fid then
        if 0 < (descAt s i).pinCnt then
          (s, Except.error (BufErr.pagePinned fid (descAt s i).pageNo i))
        else if (descAt s i).pageNo = INVALID_NUMBER then
          (s, Except.error (BufErr.badBuffer i (descAt s i).dirty
                (descAt s i).valid (descAt s i).refbit))
        else
          let s1 := if (descAt s i).dirty then
              let sw := fileWritePage s fid (poolAt s i)
              { sw with bufDescTable := (sw.bufDescTable.set i
                  { descAt s i with dirty := false }) }
            else s
          let s2 := { s1 with hashTable := htRemove s1.hashTable fid (descAt s i).pageNo }
          flushFileGo { s2 with bufDescTable :=
              (s2.bufDescTable.set i (descAt s i).Clear) } fid (i + 1) fuel
      else
        flushFileGo s fid (i + 1) fuel
    else
      (s, Except.ok ())

/-- `BufMgr::flushFile` (`buffer.cpp` lines 164–186).  The scan is
structural on a fuel argument; the frame index grows by one per
iteration and the table length never changes during the scan, so with
initial fuel `numBufs` (at `i = 0`) the zero-fuel exit coincides
exactly with the C++ loop exit `i = numBufs`. -/
def flushFile (s : Sys) (fid : Nat) : Sys × Except BufErr Unit :=
  flushFileGo s fid 0 s.numBufs

/-- `BufMgr::disposePage` (`buffer.cpp` lines 188–201): if the page is
resident, remove its directory entry and `Clear()` its frame (no write
back); in every case call `file.deletePage(pageNo)`. -/
def disposePage (s : Sys) (fid p : Nat) : Sys × Except BufErr Unit :=
  let s1 := match htLookup s.hashTable fid p with
    | some frame =>
      let s0 := { s with hashTable := htRemove s.hashTable fid p }
      { s0 with bufDescTable := s0.bufDescTable.set frame (descAt s0 frame).Clear }
    | none => s
  (fileDeletePage s1 fid p, Except.ok ())

/-! ## The directory–frame-table invariant -/

/-- The consistency invariant between a frame table and the directory
(spec §3 invariants 1–3 and 5, §8 invariants 1 and 2):
every directory entry points inside the table, at a valid frame whose
owner and page number match the key; keys are unambiguous; every valid
frame has a matching directory entry mapping its `(file, pageNo)` pair
back to it; and empty frames own no file. -/
def InvTH (l : List BufDesc) (t : HashTbl) : Prop :=
  (∀ e ∈ t, e.2 < l.length ∧ (dAt l e.2).valid = true ∧
     (dAt l e.2).file = some e.1.1 ∧ (dAt l e.2).pageNo = e.1.2) ∧
  (t.map (fun e => e.1)).Nodup ∧
  (∀ i, i < l.length → (dAt l i).valid = true →
     (dAt l i).file ≠ none ∧
     htLookup t ((dAt l i).file.getD 0) (dAt l i).pageNo = some i) ∧
  (∀ i, i < l.length → (dAt l i).valid = false → (dAt l i).file = none)

/-- The buffer-manager invariant, on the state. -/
def Inv (s : Sys) : Prop := InvTH s.bufDescTable s.hashTable

instance (l : List BufDesc) (t : HashTbl) : Decidable (InvTH l t) := by
  unfold InvTH
  infer_instance

instance (s : Sys) : Decidable (Inv s) := by
  unfold Inv
  infer_instance

/-- No two (valid) frames hold the same `(file, pageNo)` pair
(spec §3 invariant 5, §8 invariant 2). -/
def noTwoFrames (l : List BufDesc) : Prop :=
  ∀ i j, i < l.length → j < l.length → i ≠ j →
    (dAt l i).valid = true → (dAt l j).valid = true →
    ¬((dAt l i).file = (dAt l j).file ∧ (dAt l i).pageNo = (dAt l j).pageNo)


/-- A small disk for the concrete witnesses: file 1 holds pages 1-4 with
distinct contents; the next page number to be assigned is 5. -/
def demoDisk : List (Nat × FileData) :=
  [(1, { pages := [(1, 11), (2, 12), (3, 13), (4, 14)], nextPage := 5 })]

/-- A reachable two-frame state: built from a fresh manager by reading
pages 1, 2, 3 of file 1 and unpinning pages 2 and 3 (page 3 evicted
page 2 on a clock pass that cleared the reference bits).  In it frame 0
holds page 1, pinned, with its reference bit already cleared by that
sweep; frame 1 holds page 3, unpinned, with its reference bit set. -/
def c1State : Sys :=
  (unPinPage (readPage (unPinPage (readPage (readPage (initSys 2 demoDisk)
    1 1).1 1 2).1 1 2 false).1 1 3).1 1 3 false).1

/-- A two-frame state with page 1 of file 1 resident and pinned in
frame 0. -/
def c2State : Sys := (readPage (initSys 2 demoDisk) 1 1).1

/-- A one-frame state whose single frame is pinned. -/
def c9State : Sys := (readPage (initSys 1 demoDisk) 1 1).1

/-- `c1State` after unpinning page 1 with `dirty = true`: both frames
valid and unpinned, frame 0 dirty — `flushFile` succeeds on it. -/
def c5State : Sys := (unPinPage c1State 1 1 true).1

/-! ## Basic lemmas about the frame table and the directory -/

theorem refbitCount_set_eq {l : List BufDesc} {i : Nat} {d : BufDesc}
    (hget : l[i]? = some d) (hr : d.refbit = true) {e : BufDesc}
    (he : e.refbit = false) : refbitCount (l.set i e) + 1 = refbitCount l := by
  induction l generalizing i with
  | nil => simp at hget
  | cons a t ih =>
    cases i with
    | zero =>
      simp only [List.getElem?_cons_zero, Option.some.injEq] at hget
      subst hget
      simp [refbitCount, List.countP_cons, hr, he]
    | succ n =>
      simp only [List.getElem?_cons_succ] at hget
      have := ih hget
      simp only [refbitCount] at this ⊢
      simp only [List.set_cons_succ, List.countP_cons]
      omega

/-- Each iteration either returns, clears a set reference bit, or
counts one more pinned frame, so `(numBufs - pinCount) + refbitCount + 1`
bounds the remaining iterations: above that bound the fuel argument is
irrelevant. -/
theorem allocBufLoop_fuel : ∀ (fuel1 fuel2 : Nat) (s : Sys) (pc : Nat),
    (s.numBufs - pc) + refbitCount s.bufDescTable + 1 ≤ fuel1 →
    (s.numBufs - pc) + refbitCount s.bufDescTable + 1 ≤ fuel2 →
    allocBufLoop s pc fuel1 = allocBufLoop s pc fuel2 := by
  intro fuel1
  induction fuel1 with
  | zero => intro fuel2 s pc h1 h2; omega
  | succ fuel1 ih =>
    intro fuel2 s pc h1 h2
    match fuel2 with
    | 0 => omega
    | fuel2 + 1 =>
      simp only [allocBufLoop]
      by_cases hle : s.numBufs ≤ pc
      · simp only [if_pos hle]
      · simp only [if_neg hle]
        cases hget : s.bufDescTable[(s.clockHand + 1) % s.numBufs]? with
        | none => rfl
        | some d =>
          by_cases hval : d.valid = false
          · simp only [if_pos hval]
          · simp only [if_neg hval]
            by_cases hr : d.refbit
            · simp only [if_pos hr]
              apply ih
              · have hrc := refbitCount_set_eq hget hr
                  (e := { d with refbit := false }) rfl
                simp only [Sys.numBufs, List.length_set] at h1 hrc ⊢
                omega
              · have hrc := refbitCount_set_eq hget hr
                  (e := { d with refbit := false }) rfl
                simp only [Sys.numBufs, List.length_set] at h2 hrc ⊢
                omega
            · simp only [if_neg hr]
              by_cases hpin : 0 < d.pinCnt
              · simp only [if_pos hpin]
                apply ih
                · simp only [Sys.numBufs] at h1 hle ⊢
                  omega
                · simp only [Sys.numBufs] at h2 hle ⊢
                  omega
              · simp only [if_neg hpin]

theorem dAt_set_self {l : List BufDesc} {i : Nat} (h : i < l.length) (d : BufDesc) :
    dAt (l.set i d) i = d := by
  simp [dAt, List.getElem?_set_eq_of_lt _ h]

theorem dAt_set_ne {l : List BufDesc} {i j : Nat} (h : i ≠ j) (d : BufDesc) :
    dAt (l.set i d) j = dAt l j := by
  simp [dAt, List.getElem?_set_ne h]

theorem set_oob {l : List BufDesc} {i : Nat} (h : l.length ≤ i) (d : BufDesc) :
    l.set i d = l := by
  induction l generalizing i with
  | nil => rfl
  | cons a t ih =>
    cases i with
    | zero => simp at h
    | succ n =>
      simp only [List.length_cons] at h
      rw [List.set_cons_succ, ih (by omega)]

theorem htLookup_eq_none {t : HashTbl} {fid p : Nat} :
    htLookup t fid p = none ↔ ∀ e ∈ t, e.1 ≠ (fid, p) := by
  induction t with
  | nil => simp [htLookup]
  | cons a t ih =>
    by_cases ha : a.1 = (fid, p)
    · simp [htLookup, ha]
    · simp [htLookup, ha, ih]

theorem htLookup_mem {t : HashTbl} {fid p v : Nat}
    (h : htLookup t fid p = some v) : ((fid, p), v) ∈ t := by
  induction t with
  | nil => simp [htLookup] at h
  | cons a t ih =>
    by_cases ha : a.1 = (fid, p)
    · simp only [htLookup, ha, if_pos] at h
      injection h with h2
      subst h2
      have hae : a = ((fid, p), a.2) := by rw [← ha]
      exact hae ▸ List.mem_cons_self a t
    · simp only [htLookup, ha, if_neg, not_false_iff] at h
      exact List.mem_cons_of_mem _ (ih h)

theorem htRemove_sublist (t : HashTbl) (fid p : Nat) :
    (htRemove t fid p).Sublist t := by
  induction t with
  | nil => exact List.Sublist.refl _
  | cons a t ih =>
    by_cases ha : a.1 = (fid, p)
    · simp only [htRemove, ha, if_pos]
      exact List.sublist_cons_of_sublist a (List.Sublist.refl t)
    · simp only [htRemove, ha, if_neg, not_false_iff]
      exact List.Sublist.cons₂ a ih

theorem mem_htRemove_of_ne {t : HashTbl} {fid p : Nat} {e : (Nat × Nat) × Nat}
    (he : e ∈ t) (hne : e.1 ≠ (fid, p)) : e ∈ htRemove t fid p := by
  induction t with
  | nil => simp at he
  | cons a t ih =>
    by_cases ha : a.1 = (fid, p)
    · simp only [htRemove, ha, if_pos]
      rcases List.mem_cons.mp he with rfl | h
      · exact absurd ha hne
      · exact h
    · simp only [htRemove, ha, if_neg, not_false_iff]
      rcases List.mem_cons.mp he with rfl | h
      · exact List.mem_cons_self _ _
      · exact List.mem_cons_of_mem _ (ih h)

theorem keyne_of_mem_htRemove {t : HashTbl} {fid p : Nat} {e : (Nat × Nat) × Nat}
    (hn : (t.map (fun x => x.1)).Nodup) (he : e ∈ htRemove t fid p) :
    e.1 ≠ (fid, p) := by
  induction t with
  | nil => simp [htRemove] at he
  | cons a t ih =>
    simp only [List.map_cons, List.nodup_cons] at hn
    by_cases ha : a.1 = (fid, p)
    · simp only [htRemove, ha, if_pos] at he
      intro hk
      exact hn.1 (by
        rw [← ha] at hk
        exact hk ▸ List.mem_map_of_mem (fun x => x.1) he)
    · simp only [htRemove, ha, if_neg, not_false_iff] at he
      rcases List.mem_cons.mp he with rfl | h
      · exact ha
      · exact ih hn.2 h

theorem htLookup_htRemove_ne {t : HashTbl} {fid p f2 p2 : Nat}
    (h : (f2, p2) ≠ (fid, p)) :
    htLookup (htRemove t fid p) f2 p2 = htLookup t f2 p2 := by
  induction t with
  | nil => rfl
  | cons a t ih =>
    have hc1 : ¬(fid = f2 ∧ p = p2) := fun hc => h (by rw [← hc.1, ← hc.2])
    have hc2 : ¬(f2 = fid ∧ p2 = p) := fun hc => h (by rw [hc.1, hc.2])
    by_cases ha : a.1 = (fid, p)
    · have hne : ¬ a.1 = (f2, p2) := by rw [ha]; exact fun hc => h hc.symm
      simp [htRemove, htLookup, ha, hne, hc1, hc2]
    · by_cases hb : a.1 = (f2, p2)
      · simp [htRemove, htLookup, ha, hb, hc1, hc2]
      · simp [htRemove, htLookup, ha, hb, hc1, hc2, ih]

theorem htLookup_htRemove_self {t : HashTbl} {fid p : Nat}
    (hn : (t.map (fun x => x.1)).Nodup) :
    htLookup (htRemove t fid p) fid p = none := by
  rw [htLookup_eq_none]
  exact fun e he => keyne_of_mem_htRemove hn he

theorem htLookup_none_of_sublist {t1 t2 : HashTbl}
    (hs : t1.Sublist t2) {fid p : Nat} (h : htLookup t2 fid p = none) :
    htLookup t1 fid p = none := by
  rw [htLookup_eq_none] at h ⊢
  exact fun e he => h e (hs.subset he)

theorem InvTH.noTwo {l : List BufDesc} {t : HashTbl} (h : InvTH l t) :
    noTwoFrames l := by
  rintro i j hi hj hij hvi hvj ⟨hf, hp⟩
  obtain ⟨-, -, h3, -⟩ := h
  obtain ⟨hfi, hli⟩ := h3 i hi hvi
  obtain ⟨hfj, hlj⟩ := h3 j hj hvj
  rw [hf, hp] at hli
  rw [hli] at hlj
  exact hij (Option.some.injEq _ _ ▸ hlj.symm ▸ rfl)

/-- Replacing the descriptor at `i` with one that keeps its `file`,
`pageNo` and `valid` fields preserves the invariant. -/
theorem InvTH_set_core {l : List BufDesc} {t : HashTbl} {i : Nat} {d : BufDesc}
    (hf : d.file = (dAt l i).file) (hp : d.pageNo = (dAt l i).pageNo)
    (hv : d.valid = (dAt l i).valid) (h : InvTH l t) : InvTH (l.set i d) t := by
  by_cases hi : i < l.length
  case neg => rw [set_oob (by omega) d]; exact h
  obtain ⟨h1, h2, h3, h4⟩ := h
  have hdat : ∀ j, dAt (l.set i d) j = if j = i then d else dAt l j := by
    intro j
    by_cases hji : j = i
    · subst hji; simp [dAt_set_self hi]
    · simp [hji, dAt_set_ne (fun hc => hji hc.symm)]
  refine ⟨?_, h2, ?_, ?_⟩
  · intro e he
    obtain ⟨he1, he2, he3, he4⟩ := h1 e he
    rw [List.length_set]
    refine ⟨he1, ?_, ?_, ?_⟩ <;> rw [hdat e.2] <;> split
    · next heq => rw [hv, ← heq]; exact he2
    · exact he2
    · next heq => rw [hf, ← heq]; exact he3
    · exact he3
    · next heq => rw [hp, ← heq]; exact he4
    · exact he4
  · intro j hj hval
    rw [List.length_set] at hj
    rw [hdat j] at hval ⊢
    by_cases hji : j = i
    · subst hji
      rw [if_pos rfl] at hval ⊢
      rw [hf, hp]
      rw [hv] at hval
      exact h3 j hj hval
    · simp only [hji, if_neg] at hval ⊢
      exact h3 j hj hval
  · intro j hj hval
    rw [List.length_set] at hj
    rw [hdat j] at hval ⊢
    by_cases hji : j = i
    · subst hji
      rw [if_pos rfl] at hval ⊢
      rw [hf]
      rw [hv] at hval
      exact h4 j hj hval
    · simp only [hji, if_neg] at hval ⊢
      exact h4 j hj hval

/-- Evicting frame `i` — removing its directory entry and clearing its
descriptor — preserves the invariant. -/
theorem InvTH_evict {l : List BufDesc} {t : HashTbl} {i fid : Nat}
    (h : InvTH l t) (hown : (dAt l i).file = some fid) (hi : i < l.length) :
    InvTH (l.set i (dAt l i).Clear) (htRemove t fid (dAt l i).pageNo) := by
  obtain ⟨h1, h2, h3, h4⟩ := h
  have hval : (dAt l i).valid = true := by
    cases hvb : (dAt l i).valid
    · exact absurd (h4 i hi hvb ▸ hown) (by simp)
    · rfl
  have hlook : htLookup t fid (dAt l i).pageNo = some i := by
    have hx := (h3 i hi hval).2
    rw [hown] at hx
    exact hx
  refine ⟨?_, ?_, ?_, ?_⟩
  · intro e he
    have het := (htRemove_sublist t fid _).subset he
    obtain ⟨he1, he2, he3, he4⟩ := h1 e het
    have hkey : e.1 ≠ (fid, (dAt l i).pageNo) := keyne_of_mem_htRemove h2 he
    have hne : e.2 ≠ i := by
      intro hc
      rw [hc, hown] at he3
      rw [hc] at he4
      apply hkey
      have he13 : e.1.1 = fid := Option.some.inj he3.symm
      have hpe : e.1.2 = (dAt l i).pageNo := he4.symm
      calc e.1 = (e.1.1, e.1.2) := rfl
        _ = (fid, (dAt l i).pageNo) := by rw [he13, hpe]
    rw [List.length_set]
    refine ⟨he1, ?_, ?_, ?_⟩ <;> rw [dAt_set_ne (Ne.symm hne)]
    · exact he2
    · exact he3
    · exact he4
  · exact List.Nodup.sublist ((htRemove_sublist t fid _).map _) h2
  · intro j hj hvj
    rw [List.length_set] at hj
    by_cases hji : j = i
    · subst hji
      rw [dAt_set_self hi] at hvj
      simp [BufDesc.Clear] at hvj
    · rw [dAt_set_ne (Ne.symm hji)] at hvj ⊢
      obtain ⟨hfne, hlj⟩ := h3 j hj hvj
      refine ⟨hfne, ?_⟩
      by_cases hkeq : ((dAt l j).file.getD 0, (dAt l j).pageNo)
          = (fid, (dAt l i).pageNo)
      · exfalso
        rw [Prod.mk.injEq] at hkeq
        rw [hkeq.1, hkeq.2, hlook] at hlj
        injection hlj with hx
        exact hji hx.symm
      · rw [htLookup_htRemove_ne hkeq]
        exact hlj
  · intro j hj hvj
    rw [List.length_set] at hj
    by_cases hji : j = i
    · subst hji
      rw [dAt_set_self hi]
      simp [BufDesc.Clear]
    · rw [dAt_set_ne (Ne.symm hji)] at hvj ⊢
      exact h4 j hj hvj

/-- Installing a new page in an invalid frame `fr` — inserting the
directory entry and `Set`ting the descriptor — preserves the
invariant, provided the key was absent. -/
theorem InvTH_insert {l : List BufDesc} {t : HashTbl} {fid p fr : Nat}
    (h : InvTH l t) (hnone : htLookup t fid p = none) (hfr : fr < l.length)
    (hinv : (dAt l fr).valid = false) :
    InvTH (l.set fr ((dAt l fr).Set fid p)) (((fid, p), fr) :: t) := by
  obtain ⟨h1, h2, h3, h4⟩ := h
  refine ⟨?_, ?_, ?_, ?_⟩
  · intro e he
    rcases List.mem_cons.mp he with rfl | het
    · rw [List.length_set]
      refine ⟨hfr, ?_, ?_, ?_⟩ <;> rw [dAt_set_self hfr] <;> simp [BufDesc.Set]
    · obtain ⟨he1, he2, he3, he4⟩ := h1 e het
      have hne : e.2 ≠ fr := by
        intro hc
        rw [hc] at he2
        rw [he2] at hinv
        cases hinv
      rw [List.length_set]
      refine ⟨he1, ?_, ?_, ?_⟩ <;> rw [dAt_set_ne (Ne.symm hne)]
      · exact he2
      · exact he3
      · exact he4
  · rw [List.map_cons, List.nodup_cons]
    refine ⟨?_, h2⟩
    intro hmem
    obtain ⟨e, he, hke⟩ := List.mem_map.mp hmem
    exact (htLookup_eq_none.mp hnone e he) hke
  · intro j hj hvj
    rw [List.length_set] at hj
    by_cases hji : j = fr
    · subst hji
      rw [dAt_set_self hfr]
      simp [BufDesc.Set, htLookup]
    · rw [dAt_set_ne (Ne.symm hji)] at hvj ⊢
      obtain ⟨hfne, hlj⟩ := h3 j hj hvj
      refine ⟨hfne, ?_⟩
      by_cases hkeq : ((fid, p) : Nat × Nat)
          = ((dAt l j).file.getD 0, (dAt l j).pageNo)
      · exfalso
        rw [Prod.mk.injEq] at hkeq
        rw [← hkeq.1, ← hkeq.2, hnone] at hlj
        cases hlj
      · simp only [htLookup, hkeq, if_neg, not_false_iff]
        exact hlj
  · intro j hj hvj
    rw [List.length_set] at hj
    by_cases hji : j = fr
    · subst hji
      rw [dAt_set_self hfr] at hvj
      simp [BufDesc.Set] at hvj
    · rw [dAt_set_ne (Ne.symm hji)] at hvj ⊢
      exact h4 j hj hvj

/-! ## Structural facts about the clock sweep -/

theorem dAt_of_some {l : List BufDesc} {i : Nat} {d : BufDesc}
    (h : l[i]? = some d) : dAt l i = d := by simp [dAt, h]

theorem evictFrame_pool (s : Sys) (hand : Nat) (d : BufDesc) :
    (evictFrame s hand d).1.bufPool = s.bufPool := by
  by_cases hdirt : d.dirty = true <;> cases hfile : d.file <;>
    simp [evictFrame, fileWritePage, hdirt, hfile]

theorem evictFrame_numBufs (s : Sys) (hand : Nat) (d : BufDesc) :
    (evictFrame s hand d).1.numBufs = s.numBufs := by
  by_cases hdirt : d.dirty = true <;> cases hfile : d.file <;>
    simp [evictFrame, fileWritePage, hdirt, hfile, Sys.numBufs]

theorem evictFrame_sublist (s : Sys) (hand : Nat) (d : BufDesc) :
    (evictFrame s hand d).1.hashTable.Sublist s.hashTable := by
  by_cases hdirt : d.dirty = true <;> cases hfile : d.file <;>
    simp [evictFrame, fileWritePage, hdirt, hfile, htRemove_sublist]

theorem evictFrame_ret (s : Sys) (hand : Nat) (d : BufDesc) :
    (evictFrame s hand d).2 = Except.ok hand := by
  by_cases hdirt : d.dirty = true <;> cases hfile : d.file <;>
    simp [evictFrame, fileWritePage, hdirt, hfile]

theorem evictFrame_valid (s : Sys) (hand : Nat) (d : BufDesc)
    (hh : hand < s.numBufs) :
    (descAt (evictFrame s hand d).1 hand).valid = false := by
  by_cases hdirt : d.dirty = true <;> cases hfile : d.file <;>
    (simp only [evictFrame, fileWritePage, hdirt, hfile, descAt,
       Bool.false_eq_true, if_false, if_true]
     rw [dAt_set_self hh]
     simp [BufDesc.Clear])

theorem evictFrame_inv (s : Sys) (hand : Nat) (d : BufDesc) (h : Inv s)
    (hd : dAt s.bufDescTable hand = d) (hh : hand < s.bufDescTable.length)
    (hvalid : d.valid = true) : Inv (evictFrame s hand d).1 := by
  cases hfile : d.file with
  | none =>
    exfalso
    obtain ⟨-, -, h3, -⟩ := h
    have hne := (h3 hand hh (by rw [hd]; exact hvalid)).1
    rw [hd, hfile] at hne
    exact hne rfl
  | some fid =>
    have hmain := InvTH_evict h (by rw [hd]; exact hfile) hh
    rw [hd] at hmain
    by_cases hdirt : d.dirty = true <;>
      simp only [evictFrame, fileWritePage, hdirt, hfile, Bool.false_eq_true,
        if_false, if_true] <;>
      exact hmain

theorem allocBufLoop_inv : ∀ (fuel : Nat) (s : Sys) (pc : Nat),
    Inv s → Inv (allocBufLoop s pc fuel).1 := by
  intro fuel
  induction fuel with
  | zero => intro s pc h; exact h
  | succ fuel ih =>
    intro s pc h
    simp only [allocBufLoop]
    by_cases hle : s.numBufs ≤ pc
    · simp only [if_pos hle]; exact h
    · simp only [if_neg hle]
      cases hget : s.bufDescTable[(s.clockHand + 1) % s.numBufs]? with
      | none => exact h
      | some d =>
        by_cases hval : d.valid = false
        · simp only [if_pos hval]; exact h
        · simp only [if_neg hval]
          by_cases hr : d.refbit = true
          · simp only [hr, if_true]
            exact ih _ _ (InvTH_set_core (by rw [dAt_of_some hget])
              (by rw [dAt_of_some hget]) (by rw [dAt_of_some hget]) h)
          · simp only [hr, Bool.false_eq_true, if_false]
            by_cases hpin : 0 < d.pinCnt
            · simp only [if_pos hpin]
              exact ih _ _ h
            · simp only [if_neg hpin]
              have hvalid : d.valid = true := by
                cases hvb : d.valid
                · exact absurd hvb hval
                · rfl
              have h0 : 0 < s.numBufs := by omega
              exact evictFrame_inv _ _ _ h (dAt_of_some hget)
                (Nat.mod_lt _ h0) hvalid

theorem allocBufLoop_frame : ∀ (fuel : Nat) (s : Sys) (pc : Nat),
    (allocBufLoop s pc fuel).1.bufPool = s.bufPool ∧
    (allocBufLoop s pc fuel).1.numBufs = s.numBufs ∧
    (allocBufLoop s pc fuel).1.hashTable.Sublist s.hashTable ∧
    (∀ e, (allocBufLoop s pc fuel).2 = Except.error e →
       e = BufErr.bufferExceeded ∧
       (allocBufLoop s pc fuel).1.hashTable = s.hashTable ∧
       (allocBufLoop s pc fuel).1.disk = s.disk ∧
       (allocBufLoop s pc fuel).1.trace = s.trace) ∧
    (∀ fr, (allocBufLoop s pc fuel).2 = Except.ok fr →
       fr < s.numBufs ∧ (descAt (allocBufLoop s pc fuel).1 fr).valid = false) := by
  intro fuel
  induction fuel with
  | zero =>
    intro s pc
    exact ⟨rfl, rfl, List.Sublist.refl _,
      fun e he => by cases he; exact ⟨rfl, rfl, rfl, rfl⟩,
      fun fr hfr => by cases hfr⟩
  | succ fuel ih =>
    intro s pc
    show (allocBufLoop s pc (fuel + 1)).1.bufPool = s.bufPool ∧ _
    rw [allocBufLoop]
    by_cases hle : s.numBufs ≤ pc
    · rw [if_pos hle]
      exact ⟨rfl, rfl, List.Sublist.refl _,
        fun e he => by cases he; exact ⟨rfl, rfl, rfl, rfl⟩,
        fun fr hfr => by cases hfr⟩
    · rw [if_neg hle]
      have h0 : 0 < s.numBufs := by omega
      cases hget : s.bufDescTable[(s.clockHand + 1) % s.numBufs]? with
      | none =>
        exact ⟨rfl, rfl, List.Sublist.refl _,
          fun e he => by cases he; exact ⟨rfl, rfl, rfl, rfl⟩,
          fun fr hfr => by cases hfr⟩
      | some d =>
        dsimp only
        by_cases hval : d.valid = false
        · rw [if_pos hval]
          refine ⟨rfl, rfl, List.Sublist.refl _, ?_, ?_⟩
          · intro e he
            cases he
          · intro fr hfr
            cases hfr
            refine ⟨Nat.mod_lt _ h0, ?_⟩
            show (dAt s.bufDescTable ((s.clockHand + 1) % s.numBufs)).valid = false
            rw [dAt_of_some hget]
            exact hval
        · rw [if_neg hval]
          by_cases hr : d.refbit = true
          · rw [if_pos hr]
            obtain ⟨p1, p2, p3, p4, p5⟩ := ih { s with
              clockHand := (s.clockHand + 1) % s.numBufs,
              bufDescTable := (s.bufDescTable.set ((s.clockHand + 1) % s.numBufs)
                { d with refbit := false }) } pc
            refine ⟨p1, ?_, p3, ?_, ?_⟩
            · rw [p2]; simp [Sys.numBufs]
            · intro e he
              exact p4 e he
            · intro fr hfr
              obtain ⟨q1, q2⟩ := p5 fr hfr
              refine ⟨?_, q2⟩
              simp only [Sys.numBufs, List.length_set] at q1 ⊢
              exact q1
          · rw [if_neg hr]
            by_cases hpin : 0 < d.pinCnt
            · rw [if_pos hpin]
              exact ih { s with clockHand := (s.clockHand + 1) % s.numBufs }
                (pc + 1)
            · rw [if_neg hpin]
              refine ⟨evictFrame_pool _ _ _, evictFrame_numBufs _ _ _,
                evictFrame_sublist _ _ _, ?_, ?_⟩
              · intro e he
                rw [evictFrame_ret] at he
                cases he
              · intro fr hfr
                rw [evictFrame_ret] at hfr
                cases hfr
                exact ⟨Nat.mod_lt _ h0, evictFrame_valid _ _ _ (Nat.mod_lt _ h0)⟩

/-! ## Invariant preservation by the public operations -/

theorem Inv_of_InvTH {s2 : Sys} {l : List BufDesc} {t : HashTbl}
    (hb : s2.bufDescTable = l) (hh : s2.hashTable = t) (h : InvTH l t) :
    Inv s2 := by
  unfold Inv
  rw [hb, hh]
  exact h

theorem allocBuf_inv (s : Sys) (h : Inv s) : Inv (allocBuf s).1 :=
  allocBufLoop_inv _ s 0 h

theorem allocBuf_frame (s : Sys) :
    (allocBuf s).1.bufPool = s.bufPool ∧
    (allocBuf s).1.numBufs = s.numBufs ∧
    (allocBuf s).1.hashTable.Sublist s.hashTable ∧
    (∀ e, (allocBuf s).2 = Except.error e →
       e = BufErr.bufferExceeded ∧ (allocBuf s).1.hashTable = s.hashTable ∧
       (allocBuf s).1.disk = s.disk ∧ (allocBuf s).1.trace = s.trace) ∧
    (∀ fr, (allocBuf s).2 = Except.ok fr →
       fr < s.numBufs ∧ (descAt (allocBuf s).1 fr).valid = false) :=
  allocBufLoop_frame _ s 0

theorem fileReadPage_eq {s : Sys} {fid p : Nat} {s2 : Sys} {r : Except BufErr Page}
    (h : fileReadPage s fid p = (s2, r)) :
    s2.bufDescTable = s.bufDescTable ∧ s2.hashTable = s.hashTable ∧
    s2.bufPool = s.bufPool ∧ s2.disk = s.disk ∧
    s2.trace = Ev.readP fid p :: s.trace := by
  cases hpl : pagesLookup (diskGet s.disk fid).pages p <;>
    rw [fileReadPage, hpl] at h <;> cases h <;> exact ⟨rfl, rfl, rfl, rfl, rfl⟩

theorem htInsertE_ok {t : HashTbl} {fid p fr : Nat} {ht : HashTbl}
    (h : htInsertE t fid p fr = Except.ok ht) :
    htLookup t fid p = none ∧ ht = ((fid, p), fr) :: t := by
  cases hlk : htLookup t fid p <;> rw [htInsertE, hlk] at h
  · cases h; exact ⟨rfl, rfl⟩
  · cases h

theorem diskGet_diskSet (dk : List (Nat × FileData)) (fid : Nat) (fd : FileData) :
    diskGet (diskSet dk fid fd) fid = fd := by
  induction dk with
  | nil => simp [diskGet, diskSet]
  | cons e rest ih =>
    by_cases he : e.1 = fid
    · simp [diskGet, diskSet, he]
    · simp [diskGet, diskSet, he, ih]

theorem fileAllocatePage_eq {s : Sys} {fid : Nat} {s0 : Sys} {pg : Page}
    (h : fileAllocatePage s fid = (s0, pg)) :
    s0.bufDescTable = s.bufDescTable ∧ s0.hashTable = s.hashTable ∧
    s0.bufPool = s.bufPool ∧ s0.clockHand = s.clockHand ∧
    pg = { page_number := (diskGet s.disk fid).nextPage, data := 0 } ∧
    s0.trace = Ev.allocP fid (diskGet s.disk fid).nextPage :: s.trace ∧
    diskGet s0.disk fid =
      { pages := pagesStore (diskGet s.disk fid).pages
          (diskGet s.disk fid).nextPage 0,
        nextPage := (diskGet s.disk fid).nextPage + 1 } := by
  rw [fileAllocatePage] at h
  cases h
  exact ⟨rfl, rfl, rfl, rfl, rfl, rfl, diskGet_diskSet _ _ _⟩

theorem readPage_inv (s : Sys) (fid p : Nat) (h : Inv s) :
    Inv (readPage s fid p).1 := by
  unfold readPage
  cases hlk : htLookup s.hashTable fid p with
  | some frame => exact InvTH_set_core rfl rfl rfl h
  | none =>
    dsimp only
    cases halloc : allocBuf s with
    | mk s1 r =>
      have hA := allocBuf_inv s h
      obtain ⟨a1, a2, a3, a4, a5⟩ := allocBuf_frame s
      rw [halloc] at hA a1 a2 a3 a5
      cases r with
      | error e => exact hA
      | ok frame =>
        dsimp only
        obtain ⟨hlt, hinvalid⟩ := a5 frame rfl
        cases hread : fileReadPage s1 fid p with
        | mk s2 r2 =>
          obtain ⟨f1, f2, f3, f4, f5⟩ := fileReadPage_eq hread
          cases r2 with
          | error e => exact Inv_of_InvTH f1 f2 hA
          | ok pg =>
            dsimp only
            cases hins : htInsertE s2.hashTable fid p frame with
            | error e => exact Inv_of_InvTH f1 f2 hA
            | ok ht =>
              dsimp only
              obtain ⟨hnone, hht⟩ := htInsertE_ok hins
              rw [f2] at hnone hht
              refine Inv_of_InvTH (l := s1.bufDescTable.set frame
                  ((dAt s1.bufDescTable frame).Set fid p))
                (t := ((fid, p), frame) :: s1.hashTable) ?_ ?_ ?_
              · show (s2.bufDescTable.set frame _) = _
                rw [f1]
                rfl
              · rw [hht]
              · refine InvTH_insert hA ?_ ?_ hinvalid
                · have hnone0 := htLookup_none_of_sublist a3 hlk
                  exact hnone0
                · rw [← a2] at hlt
                  exact hlt

theorem unPinTail_inv (s1 : Sys) (fid p frame : Nat) (h1 : Inv s1) :
    Inv ((if (descAt s1 frame).pinCnt = 0 then
            (s1, Except.error (BufErr.pageNotPinned fid p frame))
          else
            ({ s1 with bufDescTable := (s1.bufDescTable.set frame
                 { descAt s1 frame with
                     pinCnt := (descAt s1 frame).pinCnt - 1 }) },
             Except.ok ())).1) := by
  by_cases hz : (descAt s1 frame).pinCnt = 0
  · rw [if_pos hz]; exact h1
  · rw [if_neg hz]; exact InvTH_set_core rfl rfl rfl h1

theorem unPinPage_inv (s : Sys) (fid p : Nat) (dirty : Bool) (h : Inv s) :
    Inv (unPinPage s fid p dirty).1 := by
  unfold unPinPage
  cases hlk : htLookup s.hashTable fid p with
  | none => exact h
  | some frame =>
    dsimp only
    by_cases hd : dirty = true
    · rw [if_pos hd]
      exact unPinTail_inv _ fid p frame (InvTH_set_core rfl rfl rfl h)
    · rw [if_neg hd]
      exact unPinTail_inv _ fid p frame h

theorem allocPage_inv (s : Sys) (fid : Nat) (h : Inv s) :
    Inv (allocPage s fid).1 := by
  unfold allocPage
  cases hfa : fileAllocatePage s fid with
  | mk s0 newPage =>
    obtain ⟨g1, g2, g3, g4, g5, g6, g7⟩ := fileAllocatePage_eq hfa
    have h0 : Inv s0 := Inv_of_InvTH g1 g2 h
    dsimp only
    cases halloc : allocBuf s0 with
    | mk s1 r =>
      have hA := allocBuf_inv s0 h0
      obtain ⟨a1, a2, a3, a4, a5⟩ := allocBuf_frame s0
      rw [halloc] at hA a1 a2 a3 a5
      cases r with
      | error e => exact hA
      | ok frame =>
        dsimp only
        obtain ⟨hlt, hinvalid⟩ := a5 frame rfl
        cases hins : htInsertE s1.hashTable fid newPage.page_number frame with
        | error e => exact hA
        | ok ht =>
          dsimp only
          obtain ⟨hnone, hht⟩ := htInsertE_ok hins
          refine Inv_of_InvTH (l := s1.bufDescTable.set frame
              ((dAt s1.bufDescTable frame).Set fid newPage.page_number))
            (t := ((fid, newPage.page_number), frame) :: s1.hashTable) rfl
            (by rw [hht]) ?_
          refine InvTH_insert hA hnone ?_ hinvalid
          rw [← a2] at hlt
          exact hlt

theorem disposePage_inv (s : Sys) (fid p : Nat) (h : Inv s) :
    Inv (disposePage s fid p).1 := by
  unfold disposePage
  cases hlk : htLookup s.hashTable fid p with
  | none =>
    dsimp only
    exact Inv_of_InvTH rfl rfl h
  | some frame =>
    dsimp only
    have hmem := htLookup_mem hlk
    obtain ⟨hfl, hfv, hff, hfp⟩ := h.1 _ hmem
    have hmain := InvTH_evict h hff hfl
    rw [hfp] at hmain
    exact Inv_of_InvTH rfl rfl hmain

theorem flushFileGo_inv : ∀ (fuel : Nat) (s : Sys) (fid i : Nat),
    Inv s → Inv (flushFileGo s fid i fuel).1 := by
  intro fuel
  induction fuel with
  | zero => intro s fid i h; exact h
  | succ fuel ih =>
    intro s fid i h
    simp only [flushFileGo]
    by_cases hi : i < s.numBufs
    · rw [if_pos hi]
      by_cases hown : (descAt s i).file = some fid
      · rw [if_pos hown]
        by_cases hpin : 0 < (descAt s i).pinCnt
        · rw [if_pos hpin]; exact h
        · rw [if_neg hpin]
          by_cases hsent : (descAt s i).pageNo = INVALID_NUMBER
          · rw [if_pos hsent]; exact h
          · rw [if_neg hsent]
            apply ih
            by_cases hdirt : (descAt s i).dirty = true
            · rw [if_pos hdirt]
              have h1 : InvTH
                  (s.bufDescTable.set i { descAt s i with dirty := false })
                  s.hashTable := InvTH_set_core rfl rfl rfl h
              have hlen : i <
                  (s.bufDescTable.set i
                    { descAt s i with dirty := false }).length := by
                rw [List.length_set]; exact hi
              have hd1 : dAt (s.bufDescTable.set i
                    { descAt s i with dirty := false }) i
                  = { descAt s i with dirty := false } := dAt_set_self hi _
              have hown1 : (dAt (s.bufDescTable.set i
                    { descAt s i with dirty := false }) i).file = some fid := by
                rw [hd1]; exact hown
              have h2 := InvTH_evict h1 hown1 hlen
              rw [hd1] at h2
              exact Inv_of_InvTH rfl rfl h2
            · rw [if_neg hdirt]
              exact Inv_of_InvTH rfl rfl (InvTH_evict h hown hi)
      · rw [if_neg hown]
        exact ih s fid (i + 1) h
    · rw [if_neg hi]
      exact h

theorem flushFile_inv (s : Sys) (fid : Nat) (h : Inv s) :
    Inv (flushFile s fid).1 :=
  flushFileGo_inv _ s fid 0 h

/-! ## Further helper lemmas -/

theorem pagesLookup_pagesStore (ps : List (Nat × Nat)) (p c : Nat) :
    pagesLookup (pagesStore ps p c) p = some c := by
  induction ps with
  | nil => simp [pagesStore, pagesLookup]
  | cons e rest ih =>
    by_cases he : e.1 = p
    · simp [pagesStore, pagesLookup, he]
    · simp [pagesStore, pagesLookup, he, ih]

theorem htInsertE_error {t : HashTbl} {fid p fr : Nat} {e : BufErr}
    (h : htInsertE t fid p fr = Except.error e) :
    e = BufErr.hashAlreadyPresent := by
  cases hlk : htLookup t fid p <;> rw [htInsertE, hlk] at h
  · cases h
  · cases h; rfl

/-! ## The claims -/

/-- C1: the claim says `allocBuf` raises `BufferExceeded` only when
every frame is pinned — in particular, in any state with a valid frame
of `pinCnt = 0` (even one that becomes evictable only after a first
pass clears its reference bit) it must return a frame — and never
aborts before `N` consecutive advances have each seen a pinned frame.
The code violates this: its `pinCount` counter accumulates across
passes and is never reset when a reference bit is cleared, so in the
reachable state `c1State` (frame 1 valid, unpinned, reference bit set;
frame 0 pinned) the sweep counts frame 0 twice, reaches
`pinCount = numBufs` after only three advances — pinned, refbit-clear,
pinned — and throws, even though frame 1 is evictable on the very next
advance.  This theorem evaluates the code at that failing input. -/
theorem C1_allocBuf_spurious_bufferExceeded :
    (descAt c1State 1).valid = true ∧ (descAt c1State 1).pinCnt = 0 ∧
    (allocBuf c1State).2 = Except.error BufErr.bufferExceeded ∧
    (readPage c1State 1 2).2 = Except.error BufErr.bufferExceeded := by
  decide

/-- C2: every public operation — `readPage`, `allocPage`, `unPinPage`,
`flushFile`, `disposePage`, and the `allocBuf` eviction path — whether
it returns normally or raises (the first projection is the state at
return or at throw time), preserves the invariant `Inv`: a frame is
valid iff the directory maps its `(file, pageNo)` pair to that frame,
and (consequently, last conjunct) no two valid frames hold the same
`(file, pageNo)` pair. -/
theorem C2_ops_preserve_invariant (s : Sys) (fid p : Nat) (dirty : Bool)
    (h : Inv s) :
    (Inv (readPage s fid p).1 ∧ noTwoFrames (readPage s fid p).1.bufDescTable) ∧
    (Inv (allocPage s fid).1 ∧ noTwoFrames (allocPage s fid).1.bufDescTable) ∧
    (Inv (unPinPage s fid p dirty).1 ∧
      noTwoFrames (unPinPage s fid p dirty).1.bufDescTable) ∧
    (Inv (flushFile s fid).1 ∧ noTwoFrames (flushFile s fid).1.bufDescTable) ∧
    (Inv (disposePage s fid p).1 ∧
      noTwoFrames (disposePage s fid p).1.bufDescTable) ∧
    (Inv (allocBuf s).1 ∧ noTwoFrames (allocBuf s).1.bufDescTable) := by
  have r1 := readPage_inv s fid p h
  have r2 := allocPage_inv s fid h
  have r3 := unPinPage_inv s fid p dirty h
  have r4 := flushFile_inv s fid h
  have r5 := disposePage_inv s fid p h
  have r6 := allocBuf_inv s h
  exact ⟨⟨r1, InvTH.noTwo r1⟩, ⟨r2, InvTH.noTwo r2⟩, ⟨r3, InvTH.noTwo r3⟩,
    ⟨r4, InvTH.noTwo r4⟩, ⟨r5, InvTH.noTwo r5⟩, ⟨r6, InvTH.noTwo r6⟩⟩

/-- Witness for C2 at the concrete state `c2State`. -/
theorem C2_witness :
    Inv (readPage c2State 1 2).1 ∧ Inv (flushFile c2State 1).1 :=
  ⟨(C2_ops_preserve_invariant c2State 1 2 false (by decide)).1.1,
   (C2_ops_preserve_invariant c2State 1 2 false (by decide)).2.2.2.1.1⟩

/-- C9 (counterexample): in the one-frame state `c9State` whose only
frame is pinned, `allocPage` fails with `BufferExceeded`, yet the newly
assigned page number 5 — absent from file 1 beforehand — is left
allocated in the file afterwards: the disk-side page number does leak,
contradicting the claim that it does not. -/
theorem C9_counterexample :
    (diskGet c9State.disk 1).nextPage = 5 ∧
    pagesLookup (diskGet c9State.disk 1).pages 5 = none ∧
    (allocPage c9State 1).2 = Except.error BufErr.bufferExceeded ∧
    pagesLookup (diskGet (allocPage c9State 1).1.disk 1).pages 5 = some 0 := by
  decide

/-- C9 (amended): in `allocPage` the file's `allocatePage` call
precedes the `allocBuf` frame acquisition — the allocation event is in
the trace even when `allocBuf` then fails — and as a consequence, when
`allocPage` fails with `BufferExceeded` because all frames are pinned,
the newly assigned page number IS left allocated in the file: the page
number leaks on the disk side. -/
theorem C9_alloc_precedes_and_leaks (s : Sys) (fid : Nat) (s2 : Sys)
    (h : allocPage s fid = (s2, Except.error BufErr.bufferExceeded)) :
    Ev.allocP fid (diskGet s.disk fid).nextPage ∈ s2.trace ∧
    pagesLookup (diskGet s2.disk fid).pages (diskGet s.disk fid).nextPage
      = some 0 := by
  unfold allocPage at h
  cases hfa : fileAllocatePage s fid with
  | mk s0 newPage =>
    rw [hfa] at h
    obtain ⟨g1, g2, g3, g4, g5, g6, g7⟩ := fileAllocatePage_eq hfa
    dsimp only at h
    cases hba : allocBuf s0 with
    | mk s1 r =>
      rw [hba] at h
      obtain ⟨a1, a2, a3, a4, a5⟩ := allocBuf_frame s0
      rw [hba] at a4
      cases r with
      | error e2 =>
        dsimp only at h
        cases h
        obtain ⟨-, -, hdk, htr⟩ := a4 BufErr.bufferExceeded rfl
        constructor
        · rw [htr, g6]
          exact List.mem_cons_self _ _
        · rw [hdk, g7]
          exact pagesLookup_pagesStore _ _ _
      | ok frame =>
        dsimp only at h
        cases hins : htInsertE s1.hashTable fid newPage.page_number frame with
        | error e3 =>
          rw [hins] at h
          dsimp only at h
          cases h
          exact absurd (htInsertE_error hins) (by decide)
        | ok ht =>
          rw [hins] at h
          dsimp only at h
          cases h

/-- Witness for C9 (amended) at the concrete state `c9State`. -/
theorem C9_witness :
    Ev.allocP 1 5 ∈ (allocPage c9State 1).1.trace ∧
    pagesLookup (diskGet (allocPage c9State 1).1.disk 1).pages 5 = some 0 := by
  have h := C9_alloc_precedes_and_leaks c9State 1 (allocPage c9State 1).1
    (by decide)
  exact ⟨h.1, h.2⟩

theorem dAt_set_same_fields {l : List BufDesc} {i : Nat} {d : BufDesc}
    (hpin : d.pinCnt = (dAt l i).pinCnt) (hrb : d.refbit = (dAt l i).refbit)
    (j : Nat) :
    (dAt (l.set i d) j).pinCnt = (dAt l j).pinCnt ∧
    (dAt (l.set i d) j).refbit = (dAt l j).refbit := by
  by_cases hij : i = j
  · subst hij
    by_cases hl : i < l.length
    · rw [dAt_set_self hl]
      exact ⟨hpin, hrb⟩
    · rw [set_oob (by omega)]
      exact ⟨rfl, rfl⟩
  · rw [dAt_set_ne hij]
    exact ⟨rfl, rfl⟩

/-- C6: `unPinPage` has three behaviors.  (a) When `(file, pageNo)` is
not in the directory it silently succeeds as a no-op — the state is
returned unchanged and nothing is raised.  (b) When the page is
resident with `pinCnt = 0` it raises `PageNotPinned` carrying the file
name, page number and frame number.  (c) When resident with
`pinCnt > 0` it succeeds, decrements `pinCnt` by exactly one, and does
not modify `refbit`. -/
theorem C6_unPinPage_cases (s t u : Sys) (fA pA fB pB fC pC : Nat)
    (d1 d2 d3 : Bool) (frame frame2 : Nat)
    (habs : htLookup s.hashTable fA pA = none)
    (hres : htLookup t.hashTable fB pB = some frame)
    (hz : (descAt t frame).pinCnt = 0)
    (hres2 : htLookup u.hashTable fC pC = some frame2)
    (hpos : 0 < (descAt u frame2).pinCnt)
    (hfr2 : frame2 < u.numBufs) :
    unPinPage s fA pA d1 = (s, Except.ok ()) ∧
    (unPinPage t fB pB d2).2 = Except.error (BufErr.pageNotPinned fB pB frame) ∧
    (unPinPage u fC pC d3).2 = Except.ok () ∧
    (descAt (unPinPage u fC pC d3).1 frame2).pinCnt
      = (descAt u frame2).pinCnt - 1 ∧
    (descAt (unPinPage u fC pC d3).1 frame2).refbit
      = (descAt u frame2).refbit := by
  refine ⟨by rw [unPinPage, habs], ?_, ?_⟩
  · rw [unPinPage, hres]
    dsimp only
    by_cases hd : d2 = true
    · rw [if_pos hd]
      have hp := (dAt_set_same_fields (l := t.bufDescTable) (i := frame)
        (d := { descAt t frame with dirty := true }) rfl rfl frame).1
      split
      · rfl
      · next hcond => exact absurd (hp.trans hz) hcond
    · rw [if_neg hd, if_pos hz]
  · rw [unPinPage, hres2]
    dsimp only
    have key : ∀ s1 : Sys,
        (descAt s1 frame2).pinCnt = (descAt u frame2).pinCnt →
        (descAt s1 frame2).refbit = (descAt u frame2).refbit →
        s1.bufDescTable.length = u.bufDescTable.length →
        ((if (descAt s1 frame2).pinCnt = 0 then
            (s1, Except.error (BufErr.pageNotPinned fC pC frame2))
          else
            ({ s1 with bufDescTable := (s1.bufDescTable.set frame2
                 { descAt s1 frame2 with
                     pinCnt := (descAt s1 frame2).pinCnt - 1 }) },
             Except.ok ())) : Sys × Except BufErr Unit).2 = Except.ok () ∧
        (descAt ((if (descAt s1 frame2).pinCnt = 0 then
            (s1, Except.error (BufErr.pageNotPinned fC pC frame2))
          else
            ({ s1 with bufDescTable := (s1.bufDescTable.set frame2
                 { descAt s1 frame2 with
                     pinCnt := (descAt s1 frame2).pinCnt - 1 }) },
             Except.ok ())).1) frame2).pinCnt
          = (descAt u frame2).pinCnt - 1 ∧
        (descAt ((if (descAt s1 frame2).pinCnt = 0 then
            (s1, Except.error (BufErr.pageNotPinned fC pC frame2))
          else
            ({ s1 with bufDescTable := (s1.bufDescTable.set frame2
                 { descAt s1 frame2 with
                     pinCnt := (descAt s1 frame2).pinCnt - 1 }) },
             Except.ok ())).1) frame2).refbit
          = (descAt u frame2).refbit := by
      intro s1 hpin1 hrb1 hlen1
      have hne : ¬((descAt s1 frame2).pinCnt = 0) := by
        rw [hpin1]; omega
      have hl1 : frame2 < s1.bufDescTable.length := by
        rw [hlen1]; exact hfr2
      rw [if_neg hne]
      refine ⟨rfl, ?_, ?_⟩
      · show (dAt (s1.bufDescTable.set frame2 _) frame2).pinCnt = _
        rw [dAt_set_self hl1]
        show (descAt s1 frame2).pinCnt - 1 = _
        rw [hpin1]
      · show (dAt (s1.bufDescTable.set frame2 _) frame2).refbit = _
        rw [dAt_set_self hl1]
        show (descAt s1 frame2).refbit = _
        rw [hrb1]
    have hsetpin : (descAt { u with bufDescTable := (u.bufDescTable.set frame2
        { descAt u frame2 with dirty := true }) } frame2).pinCnt
        = (descAt u frame2).pinCnt := by
      show (dAt (u.bufDescTable.set frame2
        { descAt u frame2 with dirty := true }) frame2).pinCnt = _
      exact (dAt_set_same_fields (l := u.bufDescTable) (i := frame2)
        (d := { descAt u frame2 with dirty := true }) rfl rfl frame2).1
    have hsetrb : (descAt { u with bufDescTable := (u.bufDescTable.set frame2
        { descAt u frame2 with dirty := true }) } frame2).refbit
        = (descAt u frame2).refbit := by
      show (dAt (u.bufDescTable.set frame2
        { descAt u frame2 with dirty := true }) frame2).refbit = _
      exact (dAt_set_same_fields (l := u.bufDescTable) (i := frame2)
        (d := { descAt u frame2 with dirty := true }) rfl rfl frame2).2
    have hsetlen : ({ u with bufDescTable := (u.bufDescTable.set frame2
        { descAt u frame2 with dirty := true }) } : Sys).bufDescTable.length
        = u.bufDescTable.length := List.length_set _ _ _
    by_cases hd : d3 = true
    · rw [if_pos hd]
      exact key _ hsetpin hsetrb hsetlen
    · rw [if_neg hd]
      exact key u rfl rfl rfl

/-- Witness for C6: the empty two-frame manager for the absent case;
`c1State` (page 3 resident unpinned in frame 1) for the
`PageNotPinned` case; `c2State` (page 1 resident pinned in frame 0)
for the decrement case. -/
theorem C6_witness :
    unPinPage (initSys 2 demoDisk) 1 9 false = (initSys 2 demoDisk, Except.ok ()) ∧
    (unPinPage c1State 1 3 false).2 = Except.error (BufErr.pageNotPinned 1 3 1) ∧
    (unPinPage c2State 1 1 true).2 = Except.ok () ∧
    (descAt (unPinPage c2State 1 1 true).1 0).pinCnt
      = (descAt c2State 0).pinCnt - 1 ∧
    (descAt (unPinPage c2State 1 1 true).1 0).refbit
      = (descAt c2State 0).refbit := by
  have h := C6_unPinPage_cases (initSys 2 demoDisk) c1State c2State 1 9 1 3 1 1
    false false true 1 0 (by decide) (by decide) (by decide) (by decide)
    (by decide) (by decide)
  exact h

/-- C10: on a resident page whose frame has `pinCnt = 0`, calling
`unPinPage` with `dirty = true` first sets the frame's dirty bit and
then raises `PageNotPinned`, so the failing call leaves the dirty bit
set — the error is not atomic with respect to the dirty flag. -/
theorem C10_unPin_dirty_not_atomic (s : Sys) (fid p frame : Nat)
    (hres : htLookup s.hashTable fid p = some frame)
    (hz : (descAt s frame).pinCnt = 0) (hfr : frame < s.numBufs) :
    (unPinPage s fid p true).2 = Except.error (BufErr.pageNotPinned fid p frame) ∧
    (descAt (unPinPage s fid p true).1 frame).dirty = true := by
  rw [unPinPage, hres]
  dsimp only
  rw [if_pos rfl]
  have hp := (dAt_set_same_fields (l := s.bufDescTable) (i := frame)
    (d := { descAt s frame with dirty := true }) rfl rfl frame).1
  split
  · refine ⟨rfl, ?_⟩
    show (dAt (s.bufDescTable.set frame _) frame).dirty = true
    rw [dAt_set_self hfr]
  · next hcond => exact absurd (hp.trans hz) hcond

/-- Witness for C10 at `c1State` (page 3 resident, unpinned, in
frame 1). -/
theorem C10_witness :
    (unPinPage c1State 1 3 true).2 = Except.error (BufErr.pageNotPinned 1 3 1) ∧
    (descAt (unPinPage c1State 1 3 true).1 1).dirty = true :=
  C10_unPin_dirty_not_atomic c1State 1 3 1 (by decide) (by decide) (by decide)

/-- C7: `disposePage` on a resident page removes its directory entry
and `Clear`s its frame with no write-back — the only file call of the
whole operation is the final `deletePage`, as the trace equation shows,
even when the frame is dirty (nothing is assumed about the dirty bit) —
and then calls `file.deletePage(pageNo)`; on a non-resident page it
raises nothing, changes neither the frame table nor the directory, and
still calls `file.deletePage(pageNo)`. -/
theorem C7_disposePage (s t : Sys) (fA pA fB pB frame : Nat)
    (hres : htLookup s.hashTable fA pA = some frame) (hfr : frame < s.numBufs)
    (habs : htLookup t.hashTable fB pB = none) :
    (disposePage s fA pA).2 = Except.ok () ∧
    (disposePage s fA pA).1.hashTable = htRemove s.hashTable fA pA ∧
    descAt (disposePage s fA pA).1 frame = (descAt s frame).Clear ∧
    (disposePage s fA pA).1.trace = Ev.deleteP fA pA :: s.trace ∧
    (disposePage t fB pB).2 = Except.ok () ∧
    (disposePage t fB pB).1.bufDescTable = t.bufDescTable ∧
    (disposePage t fB pB).1.hashTable = t.hashTable ∧
    (disposePage t fB pB).1.trace = Ev.deleteP fB pB :: t.trace := by
  rw [disposePage, disposePage, hres, habs]
  refine ⟨rfl, rfl, ?_, rfl, rfl, rfl, rfl, rfl⟩
  show dAt (s.bufDescTable.set frame _) frame = _
  rw [dAt_set_self hfr]
  rfl

/-- Witness for C7: `c2State` holds page 1 of file 1 in frame 0; the
fresh two-frame manager holds nothing, so `(1, 9)` is non-resident. -/
theorem C7_witness :
    (disposePage c2State 1 1).2 = Except.ok () ∧
    (disposePage c2State 1 1).1.hashTable = htRemove c2State.hashTable 1 1 ∧
    descAt (disposePage c2State 1 1).1 0 = (descAt c2State 0).Clear ∧
    (disposePage c2State 1 1).1.trace = Ev.deleteP 1 1 :: c2State.trace ∧
    (disposePage (initSys 2 demoDisk) 1 9).2 = Except.ok () ∧
    (disposePage (initSys 2 demoDisk) 1 9).1.bufDescTable
      = (initSys 2 demoDisk).bufDescTable ∧
    (disposePage (initSys 2 demoDisk) 1 9).1.hashTable
      = (initSys 2 demoDisk).hashTable ∧
    (disposePage (initSys 2 demoDisk) 1 9).1.trace
      = Ev.deleteP 1 9 :: (initSys 2 demoDisk).trace :=
  C7_disposePage c2State (initSys 2 demoDisk) 1 1 1 9 0
    (by decide) (by decide) (by decide)

theorem readPage_hit_spec (s : Sys) (fA pA frame : Nat)
    (hhit : htLookup s.hashTable fA pA = some frame) (hfr : frame < s.numBufs) :
    (readPage s fA pA).2 = Except.ok frame ∧
    descAt (readPage s fA pA).1 frame
      = ({ descAt s frame with
           refbit := true, pinCnt := (descAt s frame).pinCnt + 1 }) ∧
    (∀ j, j ≠ frame → descAt (readPage s fA pA).1 j = descAt s j) ∧
    (readPage s fA pA).1.bufPool = s.bufPool ∧
    (readPage s fA pA).1.hashTable = s.hashTable ∧
    (readPage s fA pA).1.trace = s.trace ∧
    (readPage s fA pA).1.disk = s.disk := by
  rw [readPage, hhit]
  refine ⟨rfl, ?_, ?_, rfl, rfl, rfl, rfl⟩
  · show dAt (s.bufDescTable.set frame _) frame = _
    rw [dAt_set_self hfr]
  · intro j hj
    show dAt (s.bufDescTable.set frame _) j = _
    rw [dAt_set_ne (Ne.symm hj)]
    rfl

theorem readPage_miss_spec (t : Sys) (fB pB ft : Nat)
    (hmiss : htLookup t.hashTable fB pB = none)
    (t1 : Sys) (hta : allocBuf t = (t1, Except.ok ft))
    (t2 : Sys) (pg : Page) (htr : fileReadPage t1 fB pB = (t2, Except.ok pg))
    (hft : ft < t.bufPool.length) :
    (readPage t fB pB).2 = Except.ok ft ∧
    poolAt (readPage t fB pB).1 ft = pg ∧
    Ev.readP fB pB ∈ (readPage t fB pB).1.trace ∧
    htLookup (readPage t fB pB).1.hashTable fB pB = some ft ∧
    (descAt (readPage t fB pB).1 ft).valid = true ∧
    (descAt (readPage t fB pB).1 ft).pinCnt = 1 ∧
    (descAt (readPage t fB pB).1 ft).dirty = false ∧
    (descAt (readPage t fB pB).1 ft).refbit = true ∧
    (descAt (readPage t fB pB).1 ft).file = some fB ∧
    (descAt (readPage t fB pB).1 ft).pageNo = pB := by
  obtain ⟨a1, a2, a3, a4, a5⟩ := allocBuf_frame t
  rw [hta] at a1 a2 a3 a5
  obtain ⟨hlt, -⟩ := a5 ft rfl
  obtain ⟨f1, f2, f3, f4, f5⟩ := fileReadPage_eq htr
  have hnone2 : htLookup t2.hashTable fB pB = none := by
    rw [f2]
    exact htLookup_none_of_sublist a3 hmiss
  have hins : htInsertE t2.hashTable fB pB ft
      = Except.ok (((fB, pB), ft) :: t2.hashTable) := by
    rw [htInsertE, hnone2]
  have hpl : ft < t2.bufPool.length := by rw [f3, a1]; exact hft
  have hdl : ft < t2.bufDescTable.length := by
    rw [f1]
    show ft < t1.numBufs
    rw [a2]
    exact hlt
  rw [readPage, hmiss, hta]
  dsimp only
  rw [htr]
  dsimp only
  rw [hins]
  dsimp only
  refine ⟨rfl, ?_, ?_, ?_, ?_, ?_, ?_, ?_, ?_, ?_⟩
  · show ((t2.bufPool.set ft pg)[ft]?).getD _ = pg
    rw [List.getElem?_set_eq_of_lt _ hpl]
    rfl
  · show Ev.readP fB pB ∈ t2.trace
    rw [f5]
    exact List.mem_cons_self _ _
  · show htLookup (((fB, pB), ft) :: t2.hashTable) fB pB = some ft
    simp [htLookup]
  · show (dAt (t2.bufDescTable.set ft _) ft).valid = true
    rw [dAt_set_self hdl]
    rfl
  · show (dAt (t2.bufDescTable.set ft _) ft).pinCnt = 1
    rw [dAt_set_self hdl]
    rfl
  · show (dAt (t2.bufDescTable.set ft _) ft).dirty = false
    rw [dAt_set_self hdl]
    rfl
  · show (dAt (t2.bufDescTable.set ft _) ft).refbit = true
    rw [dAt_set_self hdl]
    rfl
  · show (dAt (t2.bufDescTable.set ft _) ft).file = some fB
    rw [dAt_set_self hdl]
    rfl
  · show (dAt (t2.bufDescTable.set ft _) ft).pageNo = pB
    rw [dAt_set_self hdl]
    rfl

/-- C3: `readPage` on a directory hit sets the frame's `refbit`,
increments its `pinCnt` by exactly 1, and returns that frame (the C++
pointer into the pool) without touching the pool, the directory, the
disk or the I/O trace — no load from the file.  On a miss it obtains a
frame from `allocBuf`, loads the page via `file.readPage` into that
frame's pool slot (the `readP` call is in the trace and the slot holds
the loaded page), inserts the directory entry, and leaves the
descriptor `Set`: `valid = true`, `pinCnt = 1`, `dirty = false`,
`refbit = true`, owner and page number as requested. -/
theorem C3_readPage_hit_miss (s t : Sys) (fA pA fB pB frame ft : Nat)
    (hhit : htLookup s.hashTable fA pA = some frame) (hfr : frame < s.numBufs)
    (hmiss : htLookup t.hashTable fB pB = none)
    (t1 : Sys) (hta : allocBuf t = (t1, Except.ok ft))
    (t2 : Sys) (pg : Page) (htr : fileReadPage t1 fB pB = (t2, Except.ok pg))
    (hft : ft < t.bufPool.length) :
    ((readPage s fA pA).2 = Except.ok frame ∧
     descAt (readPage s fA pA).1 frame
       = ({ descAt s frame with
            refbit := true, pinCnt := (descAt s frame).pinCnt + 1 }) ∧
     (∀ j, j ≠ frame → descAt (readPage s fA pA).1 j = descAt s j) ∧
     (readPage s fA pA).1.bufPool = s.bufPool ∧
     (readPage s fA pA).1.hashTable = s.hashTable ∧
     (readPage s fA pA).1.trace = s.trace ∧
     (readPage s fA pA).1.disk = s.disk) ∧
    ((readPage t fB pB).2 = Except.ok ft ∧
     poolAt (readPage t fB pB).1 ft = pg ∧
     Ev.readP fB pB ∈ (readPage t fB pB).1.trace ∧
     htLookup (readPage t fB pB).1.hashTable fB pB = some ft ∧
     (descAt (readPage t fB pB).1 ft).valid = true ∧
     (descAt (readPage t fB pB).1 ft).pinCnt = 1 ∧
     (descAt (readPage t fB pB).1 ft).dirty = false ∧
     (descAt (readPage t fB pB).1 ft).refbit = true ∧
     (descAt (readPage t fB pB).1 ft).file = some fB ∧
     (descAt (readPage t fB pB).1 ft).pageNo = pB) :=
  ⟨readPage_hit_spec s fA pA frame hhit hfr,
   readPage_miss_spec t fB pB ft hmiss t1 hta t2 pg htr hft⟩

/-- Witness for C3: a hit on page 1 (resident in frame 0 of `c2State`)
and a miss on page 2 (loaded into frame 1). -/
theorem C3_witness :
    (readPage c2State 1 1).2 = Except.ok 0 ∧
    (readPage c2State 1 1).1.trace = c2State.trace ∧
    (readPage c2State 1 2).2 = Except.ok 1 ∧
    poolAt (readPage c2State 1 2).1 1 = { page_number := 2, data := 12 } ∧
    (descAt (readPage c2State 1 2).1 1).pinCnt = 1 := by
  have h := C3_readPage_hit_miss c2State c2State 1 1 1 2 0 1
    (by decide) (by decide) (by decide)
    (allocBuf c2State).1 (by decide)
    (fileReadPage (allocBuf c2State).1 1 2).1 { page_number := 2, data := 12 }
    (by decide) (by decide)
  exact ⟨h.1.1, h.1.2.2.2.2.2.1, h.2.1, h.2.2.1, h.2.2.2.2.2.2.1⟩

/-- C8: on a `readPage` miss where the file's `readPage` raises, the
exception propagates with the state at throw time, and the frame that
`allocBuf` supplied is left empty: it is invalid, the directory has no
entry for `(file, pageNo)`, and no directory entry maps to that
frame. -/
theorem C8_read_failure_leaves_frame_empty (t : Sys) (fid p : Nat)
    (hInv : Inv t)
    (hmiss : htLookup t.hashTable fid p = none)
    (t1 : Sys) (ft : Nat) (hta : allocBuf t = (t1, Except.ok ft))
    (t2 : Sys) (e : BufErr) (htr : fileReadPage t1 fid p = (t2, Except.error e)) :
    readPage t fid p = (t2, Except.error e) ∧
    (descAt t2 ft).valid = false ∧
    htLookup t2.hashTable fid p = none ∧
    ∀ ent ∈ t2.hashTable, ent.2 ≠ ft := by
  obtain ⟨a1, a2, a3, a4, a5⟩ := allocBuf_frame t
  rw [hta] at a1 a2 a3 a5
  obtain ⟨hlt, hinvalid⟩ := a5 ft rfl
  have hA : Inv t1 := by
    have := allocBuf_inv t hInv
    rw [hta] at this
    exact this
  obtain ⟨f1, f2, f3, f4, f5⟩ := fileReadPage_eq htr
  refine ⟨?_, ?_, ?_, ?_⟩
  · rw [readPage, hmiss, hta]
    dsimp only
    rw [htr]
  · show (dAt t2.bufDescTable ft).valid = false
    rw [f1]
    exact hinvalid
  · rw [f2]
    exact htLookup_none_of_sublist a3 hmiss
  · intro ent hent
    rw [f2] at hent
    intro hc
    obtain ⟨-, hval, -, -⟩ := hA.1 ent hent
    rw [hc] at hval
    have hfalse : (dAt t1.bufDescTable ft).valid = false := hinvalid
    rw [hfalse] at hval
    cases hval

/-- Witness for C8: reading page 9 of file 1 — not present on the
disk — in `c2State`; `allocBuf` supplies frame 1, the file read fails,
and frame 1 stays empty. -/
theorem C8_witness :
    readPage c2State 1 9
      = ((fileReadPage (allocBuf c2State).1 1 9).1, Except.error BufErr.invalidPage) ∧
    (descAt (fileReadPage (allocBuf c2State).1 1 9).1 1).valid = false := by
  have h := C8_read_failure_leaves_frame_empty c2State 1 9 (by decide) (by decide)
    (allocBuf c2State).1 1 (by decide)
    (fileReadPage (allocBuf c2State).1 1 9).1 BufErr.invalidPage (by decide)
  exact ⟨h.1, h.2.1⟩

theorem dAt_oob {l : List BufDesc} {j : Nat} (h : l.length ≤ j) :
    dAt l j = { frameNo := j } := by
  simp [dAt, List.getElem?_eq_none h]

theorem flushGo_ok : ∀ (fuel : Nat) (s : Sys) (fid i : Nat),
    Inv s → s.numBufs ≤ i + fuel →
    (flushFileGo s fid i fuel).2 = Except.ok () →
    (flushFileGo s fid i fuel).1.bufPool = s.bufPool ∧
    (flushFileGo s fid i fuel).1.numBufs = s.numBufs ∧
    (∀ j, j < i → descAt (flushFileGo s fid i fuel).1 j = descAt s j) ∧
    (∀ j, (descAt s j).file ≠ some fid →
       descAt (flushFileGo s fid i fuel).1 j = descAt s j) ∧
    (∀ j, i ≤ j → (descAt s j).file = some fid →
       descAt (flushFileGo s fid i fuel).1 j = (descAt s j).Clear ∧
       htLookup (flushFileGo s fid i fuel).1.hashTable fid
         (descAt s j).pageNo = none ∧
       ((descAt s j).dirty = true →
         Ev.writeP fid (poolAt s j).page_number
           ∈ (flushFileGo s fid i fuel).1.trace)) ∧
    (∀ ev, ev ∈ s.trace → ev ∈ (flushFileGo s fid i fuel).1.trace) ∧
    (flushFileGo s fid i fuel).1.hashTable.Sublist s.hashTable := by
  intro fuel
  induction fuel with
  | zero =>
    intro s fid i hInv hfuel hok
    refine ⟨rfl, rfl, fun j hj => rfl, fun j hj => rfl, ?_,
      fun ev hev => hev, List.Sublist.refl _⟩
    intro j hj hownj
    exfalso
    have h0 : descAt s j = { frameNo := j } :=
      dAt_oob (Nat.le_trans hfuel hj)
    rw [h0] at hownj
    cases hownj
  | succ fuel ih =>
    intro s fid i hInv hfuel hok
    simp only [flushFileGo] at hok ⊢
    by_cases hi : i < s.numBufs
    · rw [if_pos hi] at hok ⊢
      by_cases hown : (descAt s i).file = some fid
      · rw [if_pos hown] at hok ⊢
        by_cases hpin : 0 < (descAt s i).pinCnt
        · rw [if_pos hpin] at hok
          cases hok
        · rw [if_neg hpin] at hok ⊢
          by_cases hsent : (descAt s i).pageNo = INVALID_NUMBER
          · rw [if_pos hsent] at hok
            cases hok
          · rw [if_neg hsent] at hok ⊢
            have hkey : ∀ S3 : Sys, Inv S3 → S3.numBufs = s.numBufs →
                S3.bufPool = s.bufPool →
                (∀ j, j ≠ i → descAt S3 j = descAt s j) →
                descAt S3 i = (descAt s i).Clear →
                htLookup S3.hashTable fid (descAt s i).pageNo = none →
                S3.hashTable.Sublist s.hashTable →
                (∀ ev, ev ∈ s.trace → ev ∈ S3.trace) →
                ((descAt s i).dirty = true →
                  Ev.writeP fid (poolAt s i).page_number ∈ S3.trace) →
                (flushFileGo S3 fid (i + 1) fuel).2 = Except.ok () →
                (flushFileGo S3 fid (i + 1) fuel).1.bufPool = s.bufPool ∧
                (flushFileGo S3 fid (i + 1) fuel).1.numBufs = s.numBufs ∧
                (∀ j, j < i →
                  descAt (flushFileGo S3 fid (i + 1) fuel).1 j = descAt s j) ∧
                (∀ j, (descAt s j).file ≠ some fid →
                  descAt (flushFileGo S3 fid (i + 1) fuel).1 j = descAt s j) ∧
                (∀ j, i ≤ j → (descAt s j).file = some fid →
                  descAt (flushFileGo S3 fid (i + 1) fuel).1 j
                    = (descAt s j).Clear ∧
                  htLookup (flushFileGo S3 fid (i + 1) fuel).1.hashTable fid
                    (descAt s j).pageNo = none ∧
                  ((descAt s j).dirty = true →
                    Ev.writeP fid (poolAt s j).page_number
                      ∈ (flushFileGo S3 fid (i + 1) fuel).1.trace)) ∧
                (∀ ev, ev ∈ s.trace →
                  ev ∈ (flushFileGo S3 fid (i + 1) fuel).1.trace) ∧
                (flushFileGo S3 fid (i + 1) fuel).1.hashTable.Sublist
                  s.hashTable := by
              intro S3 h3 hnum hpool hdne hdi hlooknone hsub htrmono htrw hok3
              obtain ⟨q1, q2, q3, q4, q5, q6, q7⟩ :=
                ih S3 fid (i + 1) h3 (by rw [hnum]; omega) hok3
              refine ⟨q1.trans hpool, q2.trans hnum, ?_, ?_, ?_, ?_,
                q7.trans hsub⟩
              · intro j hj
                rw [q3 j (by omega), hdne j (by omega)]
              · intro j hjown
                by_cases hji : j = i
                · subst hji
                  exact absurd hown hjown
                · rw [q4 j (by rw [hdne j hji]; exact hjown), hdne j hji]
              · intro j hj hownj
                by_cases hji : j = i
                · subst hji
                  refine ⟨?_, htLookup_none_of_sublist q7 hlooknone, ?_⟩
                  · rw [q3 j (by omega), hdi]
                  · intro hdj
                    exact q6 _ (htrw hdj)
                · have hs3j : descAt S3 j = descAt s j := hdne j hji
                  obtain ⟨w1, w2, w3⟩ := q5 j (by omega)
                    (by rw [hs3j]; exact hownj)
                  rw [hs3j] at w1 w2
                  refine ⟨w1, w2, ?_⟩
                  intro hdj
                  have hw := w3 (by rw [hs3j]; exact hdj)
                  rw [show poolAt S3 j = poolAt s j from by
                    unfold poolAt; rw [hpool]] at hw
                  exact hw
              · intro ev hev
                exact q6 ev (htrmono ev hev)
            by_cases hdirt : (descAt s i).dirty = true
            · rw [if_pos hdirt] at hok ⊢
              have h1 : InvTH
                  (s.bufDescTable.set i { descAt s i with dirty := false })
                  s.hashTable := InvTH_set_core rfl rfl rfl hInv
              have hd1 : dAt (s.bufDescTable.set i
                    { descAt s i with dirty := false }) i
                  = { descAt s i with dirty := false } := dAt_set_self hi _
              have h2 := InvTH_evict h1 (by rw [hd1]; exact hown)
                (by rw [List.length_set]; exact hi)
              rw [hd1] at h2
              exact hkey
                { s with
                  bufDescTable := ((s.bufDescTable.set i
                    { descAt s i with dirty := false }).set i
                      (descAt s i).Clear),
                  hashTable := htRemove s.hashTable fid (descAt s i).pageNo,
                  disk := (fileWritePage s fid (poolAt s i)).disk,
                  trace := Ev.writeP fid (poolAt s i).page_number :: s.trace }
                (Inv_of_InvTH rfl rfl h2)
                (by simp [Sys.numBufs])
                rfl
                (by
                  intro j hj
                  show dAt ((s.bufDescTable.set i _).set i _) j = _
                  rw [dAt_set_ne (Ne.symm hj), dAt_set_ne (Ne.symm hj)]
                  rfl)
                (by
                  show dAt ((s.bufDescTable.set i _).set i
                    (descAt s i).Clear) i = _
                  rw [dAt_set_self (by rw [List.length_set]; exact hi)])
                (htLookup_htRemove_self hInv.2.1)
                (htRemove_sublist _ _ _)
                (fun ev hev => List.mem_cons_of_mem _ hev)
                (fun _ => List.mem_cons_self _ _)
                hok
            · rw [if_neg hdirt] at hok ⊢
              have h2 := InvTH_evict hInv hown hi
              exact hkey
                { s with
                  bufDescTable := (s.bufDescTable.set i (descAt s i).Clear),
                  hashTable := htRemove s.hashTable fid (descAt s i).pageNo }
                (Inv_of_InvTH rfl rfl h2)
                (by simp [Sys.numBufs])
                rfl
                (by
                  intro j hj
                  show dAt (s.bufDescTable.set i _) j = _
                  rw [dAt_set_ne (Ne.symm hj)]
                  rfl)
                (by
                  show dAt (s.bufDescTable.set i (descAt s i).Clear) i = _
                  rw [dAt_set_self hi])
                (htLookup_htRemove_self hInv.2.1)
                (htRemove_sublist _ _ _)
                (fun ev hev => hev)
                (fun hdj => absurd hdj hdirt)
                hok
      · rw [if_neg hown] at hok ⊢
        obtain ⟨q1, q2, q3, q4, q5, q6, q7⟩ := ih s fid (i + 1) hInv
          (by omega) hok
        refine ⟨q1, q2, ?_, q4, ?_, q6, q7⟩
        · intro j hj
          exact q3 j (by omega)
        · intro j hj hownj
          have hne : j ≠ i := fun hc => hown (hc ▸ hownj)
          exact q5 j (by omega) hownj
    · rw [if_neg hi] at hok ⊢
      refine ⟨rfl, rfl, fun j hj => rfl, fun j hj => rfl, ?_,
        fun ev hev => hev, List.Sublist.refl _⟩
      intro j hj hownj
      exfalso
      have h0 : descAt s j = { frameNo := j } :=
        dAt_oob (Nat.le_trans (show s.numBufs ≤ i by omega) hj)
      rw [h0] at hownj
      cases hownj

/-- C5: when `flushFile(file)` returns normally, no frame is owned by
`file`; every frame that was owned by `file` had its dirty contents
written back via `file.writePage` (the write event for its pool page is
in the trace) with the dirty bit then cleared (it is `Clear`ed with the
whole descriptor), its directory entry removed, and its descriptor
`Clear`ed; frames owned by other files are unchanged, and the page pool
is untouched. -/
theorem C5_flushFile_clean (s : Sys) (fid : Nat) (hInv : Inv s)
    (hok : (flushFile s fid).2 = Except.ok ()) :
    (∀ j, (descAt (flushFile s fid).1 j).file ≠ some fid) ∧
    (∀ j, (descAt s j).file = some fid →
       descAt (flushFile s fid).1 j = (descAt s j).Clear ∧
       htLookup (flushFile s fid).1.hashTable fid (descAt s j).pageNo = none ∧
       ((descAt s j).dirty = true →
         Ev.writeP fid (poolAt s j).page_number ∈ (flushFile s fid).1.trace)) ∧
    (∀ j, (descAt s j).file ≠ some fid →
       descAt (flushFile s fid).1 j = descAt s j) ∧
    (flushFile s fid).1.bufPool = s.bufPool := by
  unfold flushFile at hok ⊢
  obtain ⟨q1, q2, q3, q4, q5, q6, q7⟩ :=
    flushGo_ok s.numBufs s fid 0 hInv (by omega) hok
  refine ⟨?_, ?_, q4, q1⟩
  · intro j
    by_cases hownj : (descAt s j).file = some fid
    · obtain ⟨w1, -, -⟩ := q5 j (Nat.zero_le j) hownj
      rw [w1]
      simp [BufDesc.Clear]
    · rw [q4 j hownj]
      exact hownj
  · intro j hownj
    exact q5 j (Nat.zero_le j) hownj

/-- Witness for C5 at `c5State` (page 1 dirty and unpinned in frame 0,
page 3 clean and unpinned in frame 1, both owned by file 1). -/
theorem C5_witness :
    (∀ j, (descAt (flushFile c5State 1).1 j).file ≠ some 1) ∧
    descAt (flushFile c5State 1).1 0 = (descAt c5State 0).Clear ∧
    Ev.writeP 1 1 ∈ (flushFile c5State 1).1.trace := by
  have h := C5_flushFile_clean c5State 1 (by decide) (by decide)
  refine ⟨h.1, ?_, ?_⟩
  · exact (h.2.1 0 (by decide)).1
  · exact (h.2.1 0 (by decide)).2.2 (by decide)

theorem flushGo_err : ∀ (fuel : Nat) (s : Sys) (fid i i0 : Nat),
    Inv s → s.numBufs ≤ i + fuel → i ≤ i0 → i0 < s.numBufs →
    (descAt s i0).file = some fid →
    (0 < (descAt s i0).pinCnt ∨ (descAt s i0).pageNo = INVALID_NUMBER) →
    (∀ j, i ≤ j → j < i0 → (descAt s j).file = some fid →
       (descAt s j).pinCnt = 0 ∧ (descAt s j).pageNo ≠ INVALID_NUMBER) →
    (flushFileGo s fid i fuel).2 = Except.error
      (if 0 < (descAt s i0).pinCnt then
         BufErr.pagePinned fid (descAt s i0).pageNo i0
       else
         BufErr.badBuffer i0 (descAt s i0).dirty (descAt s i0).valid
           (descAt s i0).refbit) ∧
    (∀ j, i0 ≤ j → descAt (flushFileGo s fid i fuel).1 j = descAt s j) ∧
    (∀ j, j < i → descAt (flushFileGo s fid i fuel).1 j = descAt s j) ∧
    (∀ j, (descAt s j).file ≠ some fid →
       descAt (flushFileGo s fid i fuel).1 j = descAt s j) ∧
    (∀ j, i ≤ j → j < i0 → (descAt s j).file = some fid →
       descAt (flushFileGo s fid i fuel).1 j = (descAt s j).Clear ∧
       htLookup (flushFileGo s fid i fuel).1.hashTable fid
         (descAt s j).pageNo = none ∧
       ((descAt s j).dirty = true →
         Ev.writeP fid (poolAt s j).page_number
           ∈ (flushFileGo s fid i fuel).1.trace)) ∧
    (flushFileGo s fid i fuel).1.bufPool = s.bufPool ∧
    (∀ ev, ev ∈ s.trace → ev ∈ (flushFileGo s fid i fuel).1.trace) ∧
    (flushFileGo s fid i fuel).1.hashTable.Sublist s.hashTable := by
  intro fuel
  induction fuel with
  | zero =>
    intro s fid i i0 hInv hfuel hii0 hi0 hi0own hbad hpre
    exact absurd hi0 (by omega)
  | succ fuel ih =>
    intro s fid i i0 hInv hfuel hii0 hi0 hi0own hbad hpre
    simp only [flushFileGo]
    have hi : i < s.numBufs := by omega
    rw [if_pos hi]
    by_cases hii : i = i0
    · subst hii
      rw [if_pos hi0own]
      by_cases hpin : 0 < (descAt s i).pinCnt
      · rw [if_pos hpin, if_pos hpin]
        refine ⟨rfl, fun j hj => rfl, fun j hj => rfl, fun j hj => rfl, ?_,
          rfl, fun ev hev => hev, List.Sublist.refl _⟩
        intro j hj1 hj2 hj3
        exact absurd hj2 (by omega)
      · have hsent : (descAt s i).pageNo = INVALID_NUMBER :=
          hbad.resolve_left hpin
        rw [if_neg hpin, if_neg hpin, if_pos hsent]
        refine ⟨rfl, fun j hj => rfl, fun j hj => rfl, fun j hj => rfl, ?_,
          rfl, fun ev hev => hev, List.Sublist.refl _⟩
        intro j hj1 hj2 hj3
        exact absurd hj2 (by omega)
    · have hlt : i < i0 := by omega
      by_cases hown : (descAt s i).file = some fid
      · obtain ⟨hpz, hsnz⟩ := hpre i (Nat.le_refl i) hlt hown
        have hpin : ¬(0 < (descAt s i).pinCnt) := by omega
        rw [if_pos hown, if_neg hpin, if_neg hsnz]
        have hkeyE : ∀ S3 : Sys, Inv S3 → S3.numBufs = s.numBufs →
            S3.bufPool = s.bufPool →
            (∀ j, j ≠ i → descAt S3 j = descAt s j) →
            descAt S3 i = (descAt s i).Clear →
            htLookup S3.hashTable fid (descAt s i).pageNo = none →
            S3.hashTable.Sublist s.hashTable →
            (∀ ev, ev ∈ s.trace → ev ∈ S3.trace) →
            ((descAt s i).dirty = true →
              Ev.writeP fid (poolAt s i).page_number ∈ S3.trace) →
            (flushFileGo S3 fid (i + 1) fuel).2 = Except.error
              (if 0 < (descAt s i0).pinCnt then
                 BufErr.pagePinned fid (descAt s i0).pageNo i0
               else
                 BufErr.badBuffer i0 (descAt s i0).dirty (descAt s i0).valid
                   (descAt s i0).refbit) ∧
            (∀ j, i0 ≤ j →
              descAt (flushFileGo S3 fid (i + 1) fuel).1 j = descAt s j) ∧
            (∀ j, j < i →
              descAt (flushFileGo S3 fid (i + 1) fuel).1 j = descAt s j) ∧
            (∀ j, (descAt s j).file ≠ some fid →
              descAt (flushFileGo S3 fid (i + 1) fuel).1 j = descAt s j) ∧
            (∀ j, i ≤ j → j < i0 → (descAt s j).file = some fid →
              descAt (flushFileGo S3 fid (i + 1) fuel).1 j
                = (descAt s j).Clear ∧
              htLookup (flushFileGo S3 fid (i + 1) fuel).1.hashTable fid
                (descAt s j).pageNo = none ∧
              ((descAt s j).dirty = true →
                Ev.writeP fid (poolAt s j).page_number
                  ∈ (flushFileGo S3 fid (i + 1) fuel).1.trace)) ∧
            (flushFileGo S3 fid (i + 1) fuel).1.bufPool = s.bufPool ∧
            (∀ ev, ev ∈ s.trace →
              ev ∈ (flushFileGo S3 fid (i + 1) fuel).1.trace) ∧
            (flushFileGo S3 fid (i + 1) fuel).1.hashTable.Sublist
              s.hashTable := by
          intro S3 h3 hnum hpool hdne hdi hlooknone hsub htrmono htrw
          have hd0 : descAt S3 i0 = descAt s i0 := hdne i0 (by omega)
          obtain ⟨r1, r2, r3, r4, r5, r6, r7, r8⟩ :=
            ih S3 fid (i + 1) i0 h3 (by rw [hnum]; omega) (by omega)
              (by rw [show S3.numBufs = s.numBufs from hnum]; exact hi0)
              (by rw [hd0]; exact hi0own)
              (by rw [hd0]; exact hbad)
              (fun j hj1 hj2 hj3 => by
                have hjne : j ≠ i := by omega
                rw [hdne j hjne] at hj3 ⊢
                exact hpre j (by omega) hj2 hj3)
          rw [hd0] at r1
          refine ⟨r1, ?_, ?_, ?_, ?_, r6.trans hpool, ?_, r8.trans hsub⟩
          · intro j hj
            rw [r2 j hj, hdne j (by omega)]
          · intro j hj
            rw [r3 j (by omega), hdne j (by omega)]
          · intro j hjown
            by_cases hji : j = i
            · subst hji
              exact absurd hown hjown
            · rw [r4 j (by rw [hdne j hji]; exact hjown), hdne j hji]
          · intro j hj1 hj2 hj3
            by_cases hji : j = i
            · subst hji
              refine ⟨?_, htLookup_none_of_sublist r8 hlooknone, ?_⟩
              · rw [r3 j (by omega), hdi]
              · intro hdj
                exact r7 _ (htrw hdj)
            · have hs3j : descAt S3 j = descAt s j := hdne j hji
              obtain ⟨w1, w2, w3⟩ := r5 j (by omega) hj2
                (by rw [hs3j]; exact hj3)
              rw [hs3j] at w1 w2
              refine ⟨w1, w2, ?_⟩
              intro hdj
              have hw := w3 (by rw [hs3j]; exact hdj)
              rw [show poolAt S3 j = poolAt s j from by
                unfold poolAt; rw [hpool]] at hw
              exact hw
          · intro ev hev
            exact r7 ev (htrmono ev hev)
        by_cases hdirt : (descAt s i).dirty = true
        · rw [if_pos hdirt]
          have h1 : InvTH
              (s.bufDescTable.set i { descAt s i with dirty := false })
              s.hashTable := InvTH_set_core rfl rfl rfl hInv
          have hd1 : dAt (s.bufDescTable.set i
                { descAt s i with dirty := false }) i
              = { descAt s i with dirty := false } := dAt_set_self hi _
          have h2 := InvTH_evict h1 (by rw [hd1]; exact hown)
            (by rw [List.length_set]; exact hi)
          rw [hd1] at h2
          exact hkeyE
            { s with
              bufDescTable := ((s.bufDescTable.set i
                { descAt s i with dirty := false }).set i
                  (descAt s i).Clear),
              hashTable := htRemove s.hashTable fid (descAt s i).pageNo,
              disk := (fileWritePage s fid (poolAt s i)).disk,
              trace := Ev.writeP fid (poolAt s i).page_number :: s.trace }
            (Inv_of_InvTH rfl rfl h2)
            (by simp [Sys.numBufs])
            rfl
            (by
              intro j hj
              show dAt ((s.bufDescTable.set i _).set i _) j = _
              rw [dAt_set_ne (Ne.symm hj), dAt_set_ne (Ne.symm hj)]
              rfl)
            (by
              show dAt ((s.bufDescTable.set i _).set i
                (descAt s i).Clear) i = _
              rw [dAt_set_self (by rw [List.length_set]; exact hi)])
            (htLookup_htRemove_self hInv.2.1)
            (htRemove_sublist _ _ _)
            (fun ev hev => List.mem_cons_of_mem _ hev)
            (fun _ => List.mem_cons_self _ _)
        · rw [if_neg hdirt]
          have h2 := InvTH_evict hInv hown hi
          exact hkeyE
            { s with
              bufDescTable := (s.bufDescTable.set i (descAt s i).Clear),
              hashTable := htRemove s.hashTable fid (descAt s i).pageNo }
            (Inv_of_InvTH rfl rfl h2)
            (by simp [Sys.numBufs])
            rfl
            (by
              intro j hj
              show dAt (s.bufDescTable.set i _) j = _
              rw [dAt_set_ne (Ne.symm hj)]
              rfl)
            (by
              show dAt (s.bufDescTable.set i (descAt s i).Clear) i = _
              rw [dAt_set_self hi])
            (htLookup_htRemove_self hInv.2.1)
            (htRemove_sublist _ _ _)
            (fun ev hev => hev)
            (fun hdj => absurd hdj hdirt)
      · rw [if_neg hown]
        obtain ⟨r1, r2, r3, r4, r5, r6, r7, r8⟩ :=
          ih s fid (i + 1) i0 hInv (by omega) (by omega) hi0 hi0own hbad
            (fun j hj1 hj2 hj3 => hpre j (by omega) hj2 hj3)
        refine ⟨r1, r2, ?_, r4, ?_, r6, r7, r8⟩
        · intro j hj
          exact r3 j (by omega)
        · intro j hj1 hj2 hj3
          have hne : j ≠ i := fun hc => hown (hc ▸ hj3)
          exact r5 j (by omega) hj2 hj3

/-- C4: flushFile raises PagePinned at the first owned frame in scan order
with pinCnt > 0, and BadBuffer at the first owned frame whose pageNo is the
INVALID sentinel — a case that (under the invariant) only arises with
valid = true, since invalid frames own no file. When the error is raised
mid-scan, the owned frames already processed earlier remain flushed and
evicted (descriptor Cleared, directory entry removed, dirty pages written
back), frames at or after the bad one and frames of other files are
untouched: partial mutation is preserved, no pre-scan. -/
theorem C4_flushFile_errors (s : Sys) (fid i0 : Nat) (hInv : Inv s)
    (hi0 : i0 < s.numBufs)
    (hown : (descAt s i0).file = some fid)
    (hbad : 0 < (descAt s i0).pinCnt ∨ (descAt s i0).pageNo = INVALID_NUMBER)
    (hpre : ∀ j, j < i0 → (descAt s j).file = some fid →
       (descAt s j).pinCnt = 0 ∧ (descAt s j).pageNo ≠ INVALID_NUMBER) :
    (flushFile s fid).2 = Except.error
      (if 0 < (descAt s i0).pinCnt then
         BufErr.pagePinned fid (descAt s i0).pageNo i0
       else
         BufErr.badBuffer i0 (descAt s i0).dirty (descAt s i0).valid
           (descAt s i0).refbit) ∧
    (descAt s i0).valid = true ∧
    (∀ j, i0 ≤ j → descAt (flushFile s fid).1 j = descAt s j) ∧
    (∀ j, (descAt s j).file ≠ some fid →
       descAt (flushFile s fid).1 j = descAt s j) ∧
    (∀ j, j < i0 → (descAt s j).file = some fid →
       descAt (flushFile s fid).1 j = (descAt s j).Clear ∧
       htLookup (flushFile s fid).1.hashTable fid (descAt s j).pageNo
         = none ∧
       ((descAt s j).dirty = true →
         Ev.writeP fid (poolAt s j).page_number
           ∈ (flushFile s fid).1.trace)) ∧
    (flushFile s fid).1.bufPool = s.bufPool := by
  have hval : (descAt s i0).valid = true := by
    cases hvb : (descAt s i0).valid
    · have hfin : (descAt s i0).file = none := hInv.2.2.2 i0 hi0 hvb
      rw [hfin] at hown
      cases hown
    · rfl
  obtain ⟨r1, r2, r3, r4, r5, r6, r7, r8⟩ :=
    flushGo_err s.numBufs s fid 0 i0 hInv (by omega) (by omega) hi0 hown
      hbad (fun j hj1 hj2 hj3 => hpre j hj2 hj3)
  exact ⟨r1, hval, r2, r4, fun j hj1 hj2 => r5 j (by omega) hj1 hj2, r6⟩

theorem C4_witness :
    (flushFile c2State 1).2 = Except.error (BufErr.pagePinned 1 1 0) ∧
    (descAt c2State 0).valid = true ∧
    descAt (flushFile c2State 1).1 0 = descAt c2State 0 := by
  have h := C4_flushFile_errors c2State 1 0 (by decide) (by decide)
    (by decide) (Or.inl (by decide))
    (fun j hj hj2 => absurd hj (by omega))
  exact ⟨h.1, h.2.1, h.2.2.1 0 (Nat.le_refl 0)⟩
